import Mathlib

/-!
Shallow embedding of the core of the `rust-raytracer` repository
(`src/math/vec3.rs`, `src/math/interval.rs`, `src/math/aabb.rs`,
`src/hittables.rs`, `src/materials.rs`, `src/main.rs`) and proofs about it.

Modelling conventions:
* `f32` values are modelled as real numbers (`ℝ`): arithmetic is exact.
* Interval endpoints are modelled as `EReal` because the source uses
  `f32::INFINITY` there (`Interval::EMPTY = [+inf, -inf]`, and the ray query
  interval `(0.001, INFINITY)` in `ray_color`).  Finite endpoint arithmetic
  on `EReal` coincides with real arithmetic.
* Randomness (`rand::thread_rng`, `utils::random_unit_vector`) is modelled by
  passing the drawn values explicitly (`RNG`).
* `BVHNode::new`'s recursion is modelled with explicit fuel: `none` means the
  recursion did not complete within the given depth budget.
-/

set_option maxHeartbeats 1000000

namespace RT

noncomputable section

/-! ### Vec3 (src/math/vec3.rs) -/

/-- Translation of `Vec3`: an ordered triple of `f32` components, modelled over `ℝ`. -/
structure Vec3 where
  x : ℝ
  y : ℝ
  z : ℝ

namespace Vec3

def new (x y z : ℝ) : Vec3 := ⟨x, y, z⟩

def uniform (v : ℝ) : Vec3 := Vec3.new v v v

def ZERO : Vec3 := Vec3.new 0 0 0

def ONE : Vec3 := Vec3.new 1 1 1

def RIGHT : Vec3 := Vec3.new 1 0 0

def LEFT : Vec3 := Vec3.new (-1) 0 0

def UP : Vec3 := Vec3.new 0 1 0

def DOWN : Vec3 := Vec3.new 0 (-1) 0

def FORWARD : Vec3 := Vec3.new 0 0 (-1)

def BACKWARD : Vec3 := Vec3.new 0 0 1

instance : Neg Vec3 := ⟨fun v => ⟨-v.x, -v.y, -v.z⟩⟩

instance : Add Vec3 := ⟨fun a b => ⟨a.x + b.x, a.y + b.y, a.z + b.z⟩⟩

instance : Sub Vec3 := ⟨fun a b => ⟨a.x - b.x, a.y - b.y, a.z - b.z⟩⟩

/-- Translation of `impl Mul<Self> for Vec3` (component-wise product). -/
instance : Mul Vec3 := ⟨fun a b => ⟨a.x * b.x, a.y * b.y, a.z * b.z⟩⟩

/-- Translation of `impl Mul<f32> for Vec3`. -/
instance : HMul Vec3 ℝ Vec3 := ⟨fun v r => ⟨v.x * r, v.y * r, v.z * r⟩⟩

/-- Translation of `impl Mul<Vec3> for f32` (defined in the source as `rhs * self`). -/
instance : HMul ℝ Vec3 Vec3 := ⟨fun r v => v * r⟩

/-- Translation of `impl Div<f32> for Vec3` (defined in the source as `self * (1.0 / rhs)`). -/
instance : HDiv Vec3 ℝ Vec3 := ⟨fun v r => v * ((1 : ℝ) / r)⟩

def length_squared (v : Vec3) : ℝ := v.x * v.x + v.y * v.y + v.z * v.z

def length (v : Vec3) : ℝ := Real.sqrt v.length_squared

def normalized (v : Vec3) : Vec3 := v / v.length

/-- Translation of `Vec3::near_zero` (as a proposition; the source returns `bool`). -/
def near_zero (v : Vec3) : Prop := |v.x| < 1e-8 ∧ |v.y| < 1e-8 ∧ |v.z| < 1e-8

instance (v : Vec3) : Decidable v.near_zero := by
  unfold Vec3.near_zero; infer_instance

def dot (a b : Vec3) : ℝ := a.x * b.x + a.y * b.y + a.z * b.z

def cross (a b : Vec3) : Vec3 :=
  ⟨a.y * b.z - a.z * b.y, a.z * b.x - a.x * b.z, a.x * b.y - a.y * b.x⟩

def reflected (self normal : Vec3) : Vec3 :=
  self - (2 * Vec3.dot self normal) * normal

/-- Translation of `Vec3::refracted` (the parameter is `ior_ratio` in the source). -/
def refracted (self normal : Vec3) (eta : ℝ) : Vec3 :=
  let cos_tetha := Vec3.dot (-self) normal
  let dir_out_perp := (self + cos_tetha * normal) * eta
  let dir_out_parallel :=
    (-1 : ℝ) * Real.sqrt (1 - dir_out_perp.length_squared) * normal
  dir_out_perp + dir_out_parallel

/-- Translation of `impl Index<usize> for Vec3`; the source panics for `index > 2`
(modelled by an arbitrary value, unreachable in this development). -/
def idx (v : Vec3) : Nat → ℝ
  | 0 => v.x
  | 1 => v.y
  | 2 => v.z
  | _ => 0

end Vec3

/-- Modelled from the spec: the file `src/math/ray.rs` is not present under `src/`
(it is imported by the other math modules).  The spec's data model defines a Ray by
`origin : Vector3`, `direction : Vector3` (not required to be unit length) with
parametrized point `origin + t * direction`. -/
structure Ray where
  origin : Vec3
  direction : Vec3

namespace Ray

/-- Modelled from the spec: ray constructor from origin and direction. -/
def new (origin direction : Vec3) : Ray := ⟨origin, direction⟩

/-- Modelled from the spec: the parametrized point `origin + t * direction`
(named `Ray::at` in the source's callers; `at` is a Lean keyword). -/
def point_at (self : Ray) (t : ℝ) : Vec3 := self.origin + t * self.direction

end Ray

/-! ### Interval (src/math/interval.rs) -/

/-- Translation of `Interval`: endpoints are `EReal` since the source stores
`f32::INFINITY` in them (`EMPTY`); the field `end` of the source is renamed `stop`
because `end` is a Lean keyword. -/
structure Interval where
  start : EReal
  stop : EReal

namespace Interval

def new (start stop : EReal) : Interval := ⟨start, stop⟩

def EMPTY : Interval := Interval.new ⊤ ⊥

def UNIVERSE : Interval := Interval.new ⊥ ⊤

def combine (a b : Interval) : Interval :=
  { start := if a.start ≤ b.start then a.start else b.start
    stop := if a.stop ≥ b.stop then a.stop else b.stop }

def size (self : Interval) : EReal := self.stop - self.start

def contains (self : Interval) (v : ℝ) : Prop :=
  self.start ≤ (v : EReal) ∧ (v : EReal) ≤ self.stop

def surrounds (self : Interval) (v : ℝ) : Prop :=
  self.start < (v : EReal) ∧ (v : EReal) < self.stop

instance (self : Interval) (v : ℝ) : Decidable (self.contains v) := by
  unfold Interval.contains; infer_instance

instance (self : Interval) (v : ℝ) : Decidable (self.surrounds v) := by
  unfold Interval.surrounds; infer_instance

end Interval

/-! ### AABB (src/math/aabb.rs) -/

/-- Translation of `AABB`: three intervals, one per axis. -/
structure AABB where
  x : Interval
  y : Interval
  z : Interval

namespace AABB

def new (x y z : Interval) : AABB := ⟨x, y, z⟩

def EMPTY : AABB := AABB.new Interval.EMPTY Interval.EMPTY Interval.EMPTY

def combine (a b : AABB) : AABB :=
  { x := Interval.combine a.x b.x
    y := Interval.combine a.y b.y
    z := Interval.combine a.z b.z }

def from_points (a b : Vec3) : AABB :=
  AABB.new
    (if a.x ≤ b.x then Interval.new (a.x : ℝ) (b.x : ℝ) else Interval.new (b.x : ℝ) (a.x : ℝ))
    (if a.y ≤ b.y then Interval.new (a.y : ℝ) (b.y : ℝ) else Interval.new (b.y : ℝ) (a.y : ℝ))
    (if a.z ≤ b.z then Interval.new (a.z : ℝ) (b.z : ℝ) else Interval.new (b.z : ℝ) (a.z : ℝ))

/-- Translation of `impl Index<usize> for AABB`; the source panics for `index > 2`
(modelled by an arbitrary value, unreachable in this development). -/
def axis (self : AABB) : Nat → Interval
  | 0 => self.x
  | 1 => self.y
  | 2 => self.z
  | _ => Interval.EMPTY

/-- One iteration of the slab loop in `AABB::hit`: shrink the running `t_range`
by the entry/exit distances on axis `i`.  Division is `EReal` division, which on
finite (real) values agrees with real division. -/
def hitAxisRange (self : AABB) (ray : Ray) (t_range : Interval) (i : Nat) : Interval :=
  let axis_interval := self.axis i
  let t0 := (axis_interval.start - (ray.origin.idx i : EReal)) / (ray.direction.idx i : EReal)
  let t1 := (axis_interval.stop - (ray.origin.idx i : EReal)) / (ray.direction.idx i : EReal)
  let p := if t0 ≤ t1 then (t0, t1) else (t1, t0)
  { start := max t_range.start p.1, stop := min t_range.stop p.2 }

/-- The slab loop of `AABB::hit` over the remaining axis indices, with the
source's early-return on an empty running interval. -/
def hitLoop (self : AABB) (ray : Ray) : Interval → List Nat → Bool
  | _, [] => true
  | t_range, i :: rest =>
    let t_range' := self.hitAxisRange ray t_range i
    if t_range'.stop ≤ t_range'.start then false else self.hitLoop ray t_range' rest

/-- Translation of `AABB::hit` (`for i in 0..3`). -/
def hit (self : AABB) (ray : Ray) (t_range : Interval) : Bool :=
  self.hitLoop ray t_range [0, 1, 2]

def longest_axis (self : AABB) : Nat :=
  if self.x.size ≥ self.y.size then
    (if self.x.size ≥ self.z.size then 0 else 2)
  else
    (if self.y.size ≥ self.z.size then 1 else 2)

end AABB

/-! ### Materials (src/materials.rs) -/

/-- Translation of the `Material` trait objects used by the program: the closed set of
implementors `Lambertian`, `Metal`, `Dielectric`, `DiffuseLight`. -/
inductive Material where
  | lambertian (albedo : Vec3)
  | metal (albedo : Vec3) (roughness : ℝ)
  | dielectric (ior : ℝ)
  | diffuseLight (color : Vec3)

/-! ### HitInfo (src/hittables.rs) -/

/-- Translation of `HitInfo`. -/
structure HitInfo where
  point : Vec3
  normal : Vec3
  material : Material
  t : ℝ
  u : ℝ
  v : ℝ
  front_face : Bool

/-- Translation of `HitInfo::new` (all non-material fields defaulted). -/
def HitInfo.new (material : Material) : HitInfo :=
  { material
    point := Vec3.ZERO
    normal := Vec3.ZERO
    t := 0
    u := 0
    v := 0
    front_face := false }

/-- Translation of `HitInfo::set_face_normal` (returning the updated record instead of
mutating in place). -/
def HitInfo.set_face_normal (self : HitInfo) (ray : Ray) (outward_normal : Vec3) : HitInfo :=
  let front_face := decide (Vec3.dot outward_normal ray.direction < 0)
  { self with
    front_face := front_face
    normal := if front_face then outward_normal else -outward_normal }

/-- The random draws consumed by one `Material::scatter` call: `unit_vec` is the value
returned by `utils::random_unit_vector()`, `uniform` the value returned by
`rand::thread_rng().gen::<f32>()`. -/
structure RNG where
  unit_vec : Vec3
  uniform : ℝ

/-- Translation of `materials::reflectance` (Schlick's approximation). -/
def reflectance (cos_theta ior : ℝ) : ℝ :=
  let r0 := (1 - ior) / (1 + ior)
  let r0 := r0 * r0
  r0 + (1 - r0) * (1 - cos_theta) ^ (5 : ℕ)

/-- Translation of the `scatter` methods of the four material implementations (the
trait's default, used by `DiffuseLight`, returns `None`). -/
def Material.scatter : Material → RNG → Ray → HitInfo → Option (Vec3 × Ray)
  | .lambertian albedo, rng, _ray_in, hit_info =>
    let dir := hit_info.normal + rng.unit_vec
    let dir := if dir.near_zero then hit_info.normal else dir
    some (albedo, Ray.new hit_info.point dir)
  | .metal albedo roughness, rng, ray_in, hit_info =>
    let reflected_dir := ray_in.direction.reflected hit_info.normal
    let reflected_dir := reflected_dir.normalized + roughness * rng.unit_vec
    if Vec3.dot reflected_dir hit_info.normal > 0 then
      some (albedo, Ray.new hit_info.point reflected_dir)
    else none
  | .dielectric ior, rng, ray_in, hit_info =>
    let ri := if hit_info.front_face then 1 / ior else ior
    let unit_dir := ray_in.direction.normalized
    let cos_theta := Vec3.dot (-unit_dir) hit_info.normal
    let sin_theta := Real.sqrt (1 - cos_theta ^ (2 : ℕ))
    let cannot_refract := ri * sin_theta > 1
    let direction :=
      if cannot_refract ∨ reflectance cos_theta ri > rng.uniform then
        unit_dir.reflected hit_info.normal
      else
        unit_dir.refracted hit_info.normal ri
    some (Vec3.ONE, Ray.new hit_info.point direction)
  | .diffuseLight _, _rng, _ray_in, _hit_info => none

/-- Translation of the `emitted` methods (the trait's default returns `Vec3::ZERO`;
`DiffuseLight` returns its color). -/
def Material.emitted : Material → HitInfo → Vec3
  | .diffuseLight color, _hit_info => color
  | _, _hit_info => Vec3.ZERO

/-! ### Sphere and Quad (src/hittables.rs) -/

/-- Translation of `Sphere`. -/
structure Sphere where
  center : Vec3
  radius : ℝ
  material : Material
  bounding_box : AABB

/-- Translation of `Sphere::new`. -/
def Sphere.new (center : Vec3) (radius : ℝ) (material : Material) : Sphere :=
  let rvec := Vec3.uniform radius
  let bounding_box := AABB.from_points (center - rvec) (center + rvec)
  { center, radius, material, bounding_box }

/-- Translation of `Sphere::hit` (the source writes to a mutable `t`; here the
construction of the returned record is shared through `mkInfo`). -/
def Sphere.hit (self : Sphere) (ray : Ray) (t_range : Interval) : Option HitInfo :=
  let origin_to_center := self.center - ray.origin
  let a := ray.direction.length_squared
  let h := Vec3.dot ray.direction origin_to_center
  let c := origin_to_center.length_squared - self.radius * self.radius
  let discriminant := h * h - a * c
  if discriminant < 0 then none
  else
    let sqrt_discriminant := Real.sqrt discriminant
    let mkInfo : ℝ → HitInfo := fun t =>
      let hit_info := { HitInfo.new self.material with t := t, point := ray.point_at t }
      let outward_normal := (hit_info.point - self.center).normalized
      hit_info.set_face_normal ray outward_normal
    let t := (h - sqrt_discriminant) / a
    if t_range.surrounds t then some (mkInfo t)
    else
      let t := (h + sqrt_discriminant) / a
      if t_range.surrounds t then some (mkInfo t) else none

/-- Translation of `Quad`. -/
structure Quad where
  origin : Vec3
  u : Vec3
  v : Vec3
  normal : Vec3
  d : ℝ
  w : Vec3
  material : Material
  bounding_box : AABB

/-- Translation of `Quad::new`. -/
def Quad.new (origin u v : Vec3) (material : Material) : Quad :=
  let perp := Vec3.cross u v
  let normal := perp.normalized
  let d := Vec3.dot normal origin
  let w := perp / perp.length_squared
  let bbox_diagonal1 := AABB.from_points origin (origin + u + v)
  let bbox_diagonal2 := AABB.from_points (origin + u) (origin + v)
  let bounding_box := AABB.combine bbox_diagonal1 bbox_diagonal2
  { origin, u, v, normal, d, w, material, bounding_box }

/-- Translation of the constant `UNIT_INTERVAL` in `Quad::hit`. -/
def Quad.UNIT_INTERVAL : Interval := Interval.new ((0 : ℝ) : EReal) ((1 : ℝ) : EReal)

/-- Translation of `Quad::hit`. -/
def Quad.hit (self : Quad) (ray : Ray) (t_range : Interval) : Option HitInfo :=
  let denom := Vec3.dot self.normal ray.direction
  if |denom| < 1e-8 then none
  else
    let nom := self.d - Vec3.dot self.normal ray.origin
    let t := nom / denom
    if ¬t_range.surrounds t then none
    else
      let hit_point := ray.point_at t
      let q_p_vector := hit_point - self.origin
      let alpha := Vec3.dot self.w (Vec3.cross q_p_vector self.v)
      let beta := Vec3.dot self.w (Vec3.cross self.u q_p_vector)
      if ¬Quad.UNIT_INTERVAL.contains alpha ∨ ¬Quad.UNIT_INTERVAL.contains beta then none
      else
        let hit_info := { HitInfo.new self.material with t := t, point := hit_point }
        some (hit_info.set_face_normal ray self.normal)

/-- The primitive surfaces stored in lists and BVH leaves (`Arc<dyn Hittable>` whose
concrete type is `Sphere` or `Quad`, the two primitive `Hittable` implementations). -/
inductive Surface where
  | sphere (s : Sphere)
  | quad (q : Quad)

/-- Dispatch of `Hittable::hit` on a primitive surface. -/
def Surface.hit : Surface → Ray → Interval → Option HitInfo
  | .sphere s, ray, t_range => s.hit ray t_range
  | .quad q, ray, t_range => q.hit ray t_range

/-- Dispatch of `Hittable::bounding_box` on a primitive surface. -/
def Surface.bounding_box : Surface → AABB
  | .sphere s => s.bounding_box
  | .quad q => q.bounding_box

/-! ### HittableList (src/hittables.rs) -/

/-- Translation of `HittableList`. -/
structure HittableList where
  objects : List Surface
  bounding_box : AABB

/-- Translation of `HittableList::hit`: fold over the objects, keeping the current best
hit and `closest_so_far` (initially `t_range.end`). -/
def HittableList.hit (self : HittableList) (ray : Ray) (t_range : Interval) : Option HitInfo :=
  (self.objects.foldl
    (fun acc obj =>
      match obj.hit ray (Interval.new t_range.start acc.2) with
      | some info => (some info, (info.t : EReal))
      | none => acc)
    ((none : Option HitInfo), t_range.stop)).1

/-! ### BVHNode (src/hittables.rs) -/

/-- The shape of the trees built by `BVHNode::new`: internal nodes are `BVHNode`s
(two children plus a bounding box), leaves are primitive surfaces. -/
inductive HTree where
  | surf (s : Surface)
  | node (left right : HTree) (bounding_box : AABB)

/-- Dispatch of `Hittable::bounding_box` on a tree. -/
def HTree.bounding_box : HTree → AABB
  | .surf s => s.bounding_box
  | .node _ _ b => b

/-- Translation of `BVHNode::hit` (and the `Hittable::hit` dispatch for children). -/
def HTree.hit : HTree → Ray → Interval → Option HitInfo
  | .surf s, ray, t_range => s.hit ray t_range
  | .node left right bounding_box, ray, t_range =>
    if bounding_box.hit ray t_range then
      match left.hit ray t_range with
      | some left_hit =>
        let new_t_range := Interval.new t_range.start (left_hit.t : EReal)
        match right.hit ray new_t_range with
        | some hit_right => some hit_right
        | none => some left_hit
      | none => right.hit ray t_range
    else none

/-- The bounding-box fold at the start of `BVHNode::new`. -/
def boundingBoxFold (objects : List Surface) : AABB :=
  objects.foldl (fun bounding_box obj => AABB.combine bounding_box obj.bounding_box) AABB.EMPTY

/-- Translation of `BVHNode::new`, with an explicit recursion budget `fuel`:
`none` means the recursion did not complete within `fuel` nested recursive calls
(the source function has no base case for an empty slice and recurses forever on it).
The in-place `sort_by` on `total_cmp` of the box minimum on the chosen axis is modelled
by a stable `mergeSort` on the same key; `mid` is computed from the (unchanged) length. -/
def BVHNode.newF (fuel : Nat) (objects : List Surface) : Option HTree :=
  match fuel with
  | 0 => none
  | fuel + 1 =>
    let bounding_box := boundingBoxFold objects
    let axis := bounding_box.longest_axis
    match objects with
    | [a] => some (.node (.surf a) (.surf a) bounding_box)
    | [a, b] => some (.node (.surf a) (.surf b) bounding_box)
    | _ =>
      let sorted := objects.mergeSort (fun a b =>
        decide ((a.bounding_box.axis axis).start ≤ (b.bounding_box.axis axis).start))
      let mid := sorted.length / 2
      match BVHNode.newF fuel (sorted.take mid), BVHNode.newF fuel (sorted.drop mid) with
      | some left, some right => some (.node left right bounding_box)
      | _, _ => none

/-! ### Path integration and the render loop (src/main.rs) -/

/-- Translation of `ray_color`, generic over the scene (`world : &impl Hittable` becomes
a hit function) with the per-depth random draws passed in explicitly. -/
def ray_color (world : Ray → Interval → Option HitInfo) (rng : Nat → RNG)
    (ray : Ray) (depth : Nat) (background_color : Vec3) : Vec3 :=
  match depth with
  | 0 => Vec3.ZERO
  | depth + 1 =>
    match world ray (Interval.new ((0.001 : ℝ) : EReal) ⊤) with
    | some hit_info =>
      let color_from_emission := hit_info.material.emitted hit_info
      match hit_info.material.scatter (rng (depth + 1)) ray hit_info with
      | some (attenution, scattered_ray) =>
        color_from_emission +
          attenution * ray_color world rng scattered_ray depth background_color
      | none => color_from_emission
    | none => background_color

/-- Translation of `let thread_with_extra_sample = samples % thread_count;` in `render`. -/
def thread_with_extra_sample (samples thread_count : Nat) : Nat := samples % thread_count

/-- Translation of `let base_samples_per_thread = samples / thread_count;` in `render`. -/
def base_samples_per_thread (samples thread_count : Nat) : Nat := samples / thread_count

/-- Translation of `let samples_in_thread = base_samples_per_thread + (i < thread_with_extra_sample) as u32;` in `render`. -/
def samples_in_thread (samples thread_count i : Nat) : Nat :=
  base_samples_per_thread samples thread_count +
    (if i < thread_with_extra_sample samples thread_count then 1 else 0)

/-! ### C7: partition of samples across worker threads -/

theorem sum_range_indicator_lt (n r : Nat) (h : r ≤ n) :
    (Finset.range n).sum (fun i => if i < r then 1 else 0) = r := by
  induction n with
  | zero => simp_all
  | succ n ih =>
    rcases Nat.lt_or_ge r (n + 1) with hr | hr
    · have hrn : r ≤ n := Nat.lt_succ_iff.mp hr
      rw [Finset.sum_range_succ, ih hrn, if_neg (by omega)]
      omega
    · have hreq : r = n + 1 := le_antisymm h hr
      subst hreq
      rw [Finset.sum_range_succ, if_pos (by omega)]
      have : (Finset.range n).sum (fun i => if i < n + 1 then 1 else 0)
          = (Finset.range n).sum (fun _ => 1) := by
        refine Finset.sum_congr rfl fun i hi => ?_
        rw [if_pos (by exact Nat.lt_succ_of_lt (Finset.mem_range.mp hi))]
      rw [this, Finset.sum_const, Finset.card_range, smul_eq_mul, mul_one]

/-- C7: for every `samples_per_pixel` and every `thread_count ≥ 1`, the render loop
gives each of the first `samples % thread_count` workers one sample more than the base
count, gives the remaining workers the base count, and the per-worker counts sum
exactly to `samples`. -/
theorem C7_sample_partition (samples thread_count : Nat) (h : 1 ≤ thread_count) :
    (∀ i, i < thread_with_extra_sample samples thread_count →
      samples_in_thread samples thread_count i
        = base_samples_per_thread samples thread_count + 1) ∧
    (∀ i, thread_with_extra_sample samples thread_count ≤ i →
      samples_in_thread samples thread_count i
        = base_samples_per_thread samples thread_count) ∧
    (Finset.range thread_count).sum (samples_in_thread samples thread_count) = samples := by
  refine ⟨fun i hi => ?_, fun i hi => ?_, ?_⟩
  · unfold samples_in_thread
    rw [if_pos hi]
  · unfold samples_in_thread
    rw [if_neg (by omega)]
    omega
  · unfold samples_in_thread base_samples_per_thread thread_with_extra_sample
    rw [Finset.sum_add_distrib, Finset.sum_const, Finset.card_range, smul_eq_mul]
    rw [sum_range_indicator_lt thread_count (samples % thread_count)
      (le_of_lt (Nat.mod_lt samples (by omega)))]
    exact Nat.div_add_mod samples thread_count

/-- Witness for C7 at the spec's concrete instance: 101 samples over 8 threads sum to
exactly 101, the first 5 threads get 13 samples and the remaining ones 12. -/
theorem C7_sample_partition_witness :
    (Finset.range 8).sum (samples_in_thread 101 8) = 101 ∧
    samples_in_thread 101 8 4 = 13 ∧ samples_in_thread 101 8 5 = 12 :=
  ⟨(C7_sample_partition 101 8 (by norm_num)).2.2, by decide, by decide⟩

/-! ### C8: building a BVH from an empty slice -/

theorem BVHNode.newF_nil (fuel : Nat) : BVHNode.newF fuel [] = none := by
  induction fuel with
  | zero => rfl
  | succ n ih =>
    unfold BVHNode.newF
    simp [ih]

/-- C8: `BVHNode::new` on an empty slice never produces a node, no matter how much
recursion budget it is given: the source recurses on two empty sub-slices with no base
case, so the call never returns (in the program this aborts the process by exhausting
the stack) and is never retried or recovered. -/
theorem C8_bvh_empty_never_completes (fuel : Nat) : BVHNode.newF fuel [] = none :=
  BVHNode.newF_nil fuel

/-- Witness for C8 at a concrete recursion budget. -/
theorem C8_bvh_empty_never_completes_witness : BVHNode.newF 7 [] = none :=
  C8_bvh_empty_never_completes 7

/-! ### C10: termination of BVH construction on non-empty input -/

/-- C10: `BVHNode::new` terminates on every non-empty slice: a recursion budget equal
to the slice length always suffices, because the recursive case (length ≥ 3) splits the
sorted slice at `len / 2` into two strictly shorter, non-empty halves. -/
theorem C10_bvh_new_terminates (objects : List Surface) (h : objects ≠ [])
    (fuel : Nat) (hf : objects.length ≤ fuel) : (BVHNode.newF fuel objects).isSome := by
  induction fuel generalizing objects with
  | zero =>
    exact absurd (List.length_eq_zero.mp (Nat.le_zero.mp hf)) h
  | succ n ih =>
    unfold BVHNode.newF
    match objects, h with
    | [a], _ => simp
    | [a, b], _ => simp
    | a :: b :: c :: rest, _ =>
      simp only
      set objs : List Surface := a :: b :: c :: rest with hobjs
      set ax := (boundingBoxFold objs).longest_axis
      set sorted := objs.mergeSort (fun a b =>
        decide ((a.bounding_box.axis ax).start ≤ (b.bounding_box.axis ax).start)) with hsorted
      have hlen : sorted.length = objs.length := List.length_mergeSort ..
      have hlen3 : 3 ≤ objs.length := by simp [hobjs]
      have hmid : 1 ≤ sorted.length / 2 ∧ sorted.length / 2 < sorted.length := by
        rw [hlen]; omega
      have htake : (sorted.take (sorted.length / 2)).length = sorted.length / 2 := by
        rw [List.length_take]; omega
      have hdrop : (sorted.drop (sorted.length / 2)).length
          = sorted.length - sorted.length / 2 := by
        rw [List.length_drop]
      have h1 : (BVHNode.newF n (sorted.take (sorted.length / 2))).isSome := by
        refine ih _ ?_ ?_
        · intro hnil
          rw [hnil] at htake
          simp at htake
          omega
        · rw [htake, hlen]
          omega
      have h2 : (BVHNode.newF n (sorted.drop (sorted.length / 2))).isSome := by
        refine ih _ ?_ ?_
        · intro hnil
          rw [hnil] at hdrop
          simp at hdrop
          omega
        · rw [hdrop, hlen]
          omega
      rcases Option.isSome_iff_exists.mp h1 with ⟨l, hl⟩
      rcases Option.isSome_iff_exists.mp h2 with ⟨r, hr⟩
      rw [hl, hr]
      rfl

/-- Witness for C10 at a concrete one-element scene. -/
theorem C10_bvh_new_terminates_witness :
    (BVHNode.newF 1 [Surface.sphere (Sphere.new (Vec3.new 0 0 0) 1 (.dielectric 1))]).isSome :=
  C10_bvh_new_terminates _ (by simp) 1 (by simp)

/-! ### Component lemmas for the vector operations -/

attribute [ext] Vec3

@[simp] theorem Vec3.new_x (a b c : ℝ) : (Vec3.new a b c).x = a := rfl

@[simp] theorem Vec3.new_y (a b c : ℝ) : (Vec3.new a b c).y = b := rfl

@[simp] theorem Vec3.new_z (a b c : ℝ) : (Vec3.new a b c).z = c := rfl

theorem Vec3.add_def (a b : Vec3) :
    a + b = Vec3.new (a.x + b.x) (a.y + b.y) (a.z + b.z) := rfl

theorem Vec3.sub_def (a b : Vec3) :
    a - b = Vec3.new (a.x - b.x) (a.y - b.y) (a.z - b.z) := rfl

theorem Vec3.neg_def (a : Vec3) : -a = Vec3.new (-a.x) (-a.y) (-a.z) := rfl

theorem Vec3.mul_def (a b : Vec3) :
    a * b = Vec3.new (a.x * b.x) (a.y * b.y) (a.z * b.z) := rfl

theorem Vec3.mul_real_def (v : Vec3) (r : ℝ) :
    v * r = Vec3.new (v.x * r) (v.y * r) (v.z * r) := rfl

theorem Vec3.real_mul_def (r : ℝ) (v : Vec3) :
    r * v = Vec3.new (v.x * r) (v.y * r) (v.z * r) := rfl

theorem Vec3.div_def (v : Vec3) (r : ℝ) : v / r = v * ((1 : ℝ) / r) := rfl

theorem Vec3.dot_comm (a b : Vec3) : Vec3.dot a b = Vec3.dot b a := by
  unfold Vec3.dot; ring

theorem Vec3.dot_neg_left (a b : Vec3) : Vec3.dot (-a) b = -Vec3.dot a b := by
  rw [Vec3.neg_def]; unfold Vec3.dot; simp; ring

/-- Lagrange's identity in three components: the square of the dot product is bounded
by the product of the squared lengths. -/
theorem Vec3.dot_sq_le (a b : Vec3) :
    Vec3.dot a b ^ 2 ≤ a.length_squared * b.length_squared := by
  unfold Vec3.dot Vec3.length_squared
  nlinarith [sq_nonneg (a.y * b.z - a.z * b.y), sq_nonneg (a.z * b.x - a.x * b.z),
    sq_nonneg (a.x * b.y - a.y * b.x)]

theorem Vec3.length_squared_nonneg (v : Vec3) : 0 ≤ v.length_squared := by
  unfold Vec3.length_squared
  nlinarith [sq_nonneg v.x, sq_nonneg v.y, sq_nonneg v.z]

/-- The squared length of a normalized non-zero vector is `1`. -/
theorem Vec3.length_squared_normalized (v : Vec3) (h : v.length_squared ≠ 0) :
    v.normalized.length_squared = 1 := by
  have h0 : 0 < v.length_squared := lt_of_le_of_ne v.length_squared_nonneg (Ne.symm h)
  have hs : Real.sqrt v.length_squared * Real.sqrt v.length_squared = v.length_squared :=
    Real.mul_self_sqrt (le_of_lt h0)
  have hspos : 0 < Real.sqrt v.length_squared := Real.sqrt_pos.mpr h0
  unfold Vec3.normalized Vec3.length
  rw [Vec3.div_def, Vec3.mul_real_def]
  unfold Vec3.length_squared at *
  field_simp

theorem Interval.new_start (a b : EReal) : (Interval.new a b).start = a := rfl

theorem Interval.new_stop (a b : EReal) : (Interval.new a b).stop = b := rfl

/-- The source's `Interval::combine` computes the pointwise `min`/`max` of endpoints. -/
theorem Interval.combine_eq (a b : Interval) :
    Interval.combine a b = ⟨min a.start b.start, max a.stop b.stop⟩ := by
  unfold Interval.combine
  congr 1
  · rw [min_def]
  · rcases le_total a.stop b.stop with h | h
    · rcases eq_or_lt_of_le h with heq | hlt
      · simp [heq]
      · rw [if_neg (not_le.mpr hlt), max_eq_right h]
    · rw [if_pos h, max_eq_left h]

theorem Interval.combine_EMPTY_left (i : Interval) : Interval.combine Interval.EMPTY i = i := by
  rw [Interval.combine_eq]
  cases i
  simp [Interval.EMPTY, Interval.new]

theorem Interval.combine_EMPTY_right (i : Interval) : Interval.combine i Interval.EMPTY = i := by
  rw [Interval.combine_eq]
  cases i
  simp [Interval.EMPTY, Interval.new]

theorem Interval.combine_self (i : Interval) : Interval.combine i i = i := by
  rw [Interval.combine_eq]; simp

theorem Interval.combine_assoc (a b c : Interval) :
    Interval.combine (Interval.combine a b) c = Interval.combine a (Interval.combine b c) := by
  simp [Interval.combine_eq, min_assoc, max_assoc]

theorem Interval.combine_comm (a b : Interval) :
    Interval.combine a b = Interval.combine b a := by
  simp [Interval.combine_eq, min_comm, max_comm]

theorem AABB.combine_EMPTY_left_box (b : AABB) : AABB.combine AABB.EMPTY b = b := by
  unfold AABB.combine AABB.EMPTY AABB.new
  cases b
  simp [Interval.combine_EMPTY_left]

theorem AABB.combine_EMPTY_right_box (b : AABB) : AABB.combine b AABB.EMPTY = b := by
  unfold AABB.combine AABB.EMPTY AABB.new
  cases b
  simp [Interval.combine_EMPTY_right]

theorem AABB.combine_self_box (b : AABB) : AABB.combine b b = b := by
  unfold AABB.combine
  cases b
  simp [Interval.combine_self]

theorem AABB.combine_assoc_box (a b c : AABB) :
    AABB.combine (AABB.combine a b) c = AABB.combine a (AABB.combine b c) := by
  unfold AABB.combine
  simp [Interval.combine_assoc]

theorem AABB.combine_comm_box (a b : AABB) : AABB.combine a b = AABB.combine b a := by
  unfold AABB.combine
  simp [Interval.combine_comm]

/-! ### C5: the quad bounding box is degenerate on the normal axis -/

/-- C5 evaluation: for the axis-aligned quad with origin `(0,0,0)`, `u = (1,0,0)`,
`v = (0,1,0)` (normal axis `z`, normal `(0,0,1)`), the bounding box computed by
`Quad::new` has the degenerate interval `[0,0]` of size `0` on the `z` axis: the box
has zero thickness on the normal axis, contradicting the claimed guarantee. -/
theorem C5_quad_bbox_zero_thickness :
    (Quad.new (Vec3.new 0 0 0) (Vec3.new 1 0 0) (Vec3.new 0 1 0)
        (.lambertian Vec3.ONE)).normal = Vec3.new 0 0 1 ∧
    (Quad.new (Vec3.new 0 0 0) (Vec3.new 1 0 0) (Vec3.new 0 1 0)
        (.lambertian Vec3.ONE)).bounding_box.z
      = Interval.new ((0 : ℝ) : EReal) ((0 : ℝ) : EReal) ∧
    (Quad.new (Vec3.new 0 0 0) (Vec3.new 1 0 0) (Vec3.new 0 1 0)
        (.lambertian Vec3.ONE)).bounding_box.z.size = 0 := by
  have hcross : Vec3.cross (Vec3.new 1 0 0) (Vec3.new 0 1 0) = Vec3.new 0 0 1 := by
    unfold Vec3.cross; ext <;> simp
  have hnorm : (Vec3.new (0:ℝ) 0 1).normalized = Vec3.new 0 0 1 := by
    unfold Vec3.normalized Vec3.length Vec3.length_squared
    rw [Vec3.div_def, Vec3.mul_real_def]
    norm_num
  refine ⟨?_, ?_, ?_⟩
  · unfold Quad.new
    simp only [hcross, hnorm]
  · unfold Quad.new
    simp only [hcross]
    unfold AABB.combine Interval.combine AABB.from_points AABB.new
    rw [Vec3.add_def, Vec3.add_def, Vec3.add_def]
    norm_num [Interval.new]
  · unfold Quad.new
    simp only [hcross]
    unfold AABB.combine Interval.combine AABB.from_points AABB.new
    rw [Vec3.add_def, Vec3.add_def, Vec3.add_def]
    norm_num [Interval.new, Interval.size]

/-! ### C3: the four cases of the path integrator -/

/-- C3: the path integrator returns zero radiance at depth 0; on a hit where the
material scatters, emitted plus the component-wise product of the attenuation with the
radiance of the scattered ray at depth − 1; on a hit where the material does not
scatter, the emitted color alone; and on a miss, the background color. -/
theorem C3_ray_color_cases (world : Ray → Interval → Option HitInfo) (rng : Nat → RNG)
    (ray : Ray) (background_color : Vec3) (depth : Nat) :
    ray_color world rng ray 0 background_color = Vec3.ZERO ∧
    (∀ hit_info, world ray (Interval.new ((0.001 : ℝ) : EReal) ⊤) = some hit_info →
      (∀ attenution scattered_ray,
        hit_info.material.scatter (rng (depth + 1)) ray hit_info
          = some (attenution, scattered_ray) →
        ray_color world rng ray (depth + 1) background_color
          = hit_info.material.emitted hit_info
            + attenution * ray_color world rng scattered_ray depth background_color) ∧
      (hit_info.material.scatter (rng (depth + 1)) ray hit_info = none →
        ray_color world rng ray (depth + 1) background_color
          = hit_info.material.emitted hit_info)) ∧
    (world ray (Interval.new ((0.001 : ℝ) : EReal) ⊤) = none →
      ray_color world rng ray (depth + 1) background_color = background_color) := by
  refine ⟨rfl, fun hit_info hw => ⟨fun attenution scattered_ray hsc => ?_, fun hsc => ?_⟩,
    fun hw => ?_⟩
  · simp [ray_color, hw, hsc]
  · simp [ray_color, hw, hsc]
  · simp [ray_color, hw]

/-- Witness for C3: a miss returns the background color, and a hit on a `DiffuseLight`
(a material that never scatters) returns its emitted color. -/
theorem C3_ray_color_cases_witness :
    ray_color (fun _ _ => none) (fun _ => ⟨Vec3.ZERO, 0⟩)
        (Ray.new Vec3.ZERO (Vec3.new 1 0 0)) 1 (Vec3.new 0.5 0.7 1.0) = Vec3.new 0.5 0.7 1.0 ∧
    ray_color (fun _ _ => some (HitInfo.new (.diffuseLight Vec3.ONE)))
        (fun _ => ⟨Vec3.ZERO, 0⟩) (Ray.new Vec3.ZERO (Vec3.new 1 0 0)) 1
        (Vec3.new 0.5 0.7 1.0) = Vec3.ONE :=
  ⟨(C3_ray_color_cases (fun _ _ => none) (fun _ => ⟨Vec3.ZERO, 0⟩)
      (Ray.new Vec3.ZERO (Vec3.new 1 0 0)) (Vec3.new 0.5 0.7 1.0) 0).2.2 rfl,
    ((C3_ray_color_cases (fun _ _ => some (HitInfo.new (.diffuseLight Vec3.ONE)))
      (fun _ => ⟨Vec3.ZERO, 0⟩) (Ray.new Vec3.ZERO (Vec3.new 1 0 0))
      (Vec3.new 0.5 0.7 1.0) 0).2.1 (HitInfo.new (.diffuseLight Vec3.ONE)) rfl).2 rfl⟩

/-! ### C2: each BVH node's box is the union of its children's boxes -/

/-- The C2 invariant, at every internal node of a built tree: the stored box is
exactly the `AABB::combine` union of the two children's boxes. -/
def HTree.boxInv : HTree → Prop
  | .surf _ => True
  | .node l r b => b = AABB.combine l.bounding_box r.bounding_box ∧ l.boxInv ∧ r.boxInv

theorem foldl_combine_eq (b : AABB) (l : List Surface) :
    l.foldl (fun bb obj => AABB.combine bb obj.bounding_box) b
      = AABB.combine b (boundingBoxFold l) := by
  induction l generalizing b with
  | nil => simp [boundingBoxFold, AABB.combine_EMPTY_right_box]
  | cons x xs ih =>
    rw [List.foldl_cons, ih]
    have hc : boundingBoxFold (x :: xs) = AABB.combine x.bounding_box (boundingBoxFold xs) := by
      have h0 : boundingBoxFold (x :: xs)
          = xs.foldl (fun bb obj => AABB.combine bb obj.bounding_box)
              (AABB.combine AABB.EMPTY x.bounding_box) := rfl
      rw [h0, ih, AABB.combine_EMPTY_left_box]
    rw [hc, AABB.combine_assoc_box]

theorem boundingBoxFold_cons (x : Surface) (xs : List Surface) :
    boundingBoxFold (x :: xs) = AABB.combine x.bounding_box (boundingBoxFold xs) := by
  have h0 : boundingBoxFold (x :: xs)
      = xs.foldl (fun bb obj => AABB.combine bb obj.bounding_box)
          (AABB.combine AABB.EMPTY x.bounding_box) := rfl
  rw [h0, foldl_combine_eq, AABB.combine_EMPTY_left_box]

theorem boundingBoxFold_append (l1 l2 : List Surface) :
    boundingBoxFold (l1 ++ l2)
      = AABB.combine (boundingBoxFold l1) (boundingBoxFold l2) := by
  unfold boundingBoxFold
  rw [List.foldl_append]
  exact foldl_combine_eq _ _

theorem boundingBoxFold_perm {l1 l2 : List Surface} (p : l1.Perm l2) :
    boundingBoxFold l1 = boundingBoxFold l2 := by
  unfold boundingBoxFold
  refine p.foldl_eq' (fun a _ b _ c => ?_) _
  rw [AABB.combine_assoc_box, AABB.combine_assoc_box, AABB.combine_comm_box a.bounding_box]

/-- Every tree produced by `BVHNode::new` is a node whose stored box is the
entry-time fold of the input surfaces' boxes. -/
theorem BVHNode.newF_some_box (fuel : Nat) (objects : List Surface) (tree : HTree)
    (h : BVHNode.newF fuel objects = some tree) :
    ∃ l r, tree = .node l r (boundingBoxFold objects) := by
  match fuel with
  | 0 => simp [BVHNode.newF] at h
  | fuel + 1 =>
    match objects with
    | [] => rw [BVHNode.newF_nil] at h; cases h
    | [a] =>
      simp [BVHNode.newF] at h
      exact ⟨_, _, h.symm⟩
    | [a, b] =>
      simp [BVHNode.newF] at h
      exact ⟨_, _, h.symm⟩
    | a :: b :: c :: rest =>
      unfold BVHNode.newF at h
      simp only at h
      cases hL : BVHNode.newF fuel
          (((a :: b :: c :: rest).mergeSort (fun s1 s2 =>
            decide ((s1.bounding_box.axis (boundingBoxFold
              (a :: b :: c :: rest)).longest_axis).start
              ≤ (s2.bounding_box.axis (boundingBoxFold
                (a :: b :: c :: rest)).longest_axis).start))).take
            (((a :: b :: c :: rest).mergeSort (fun s1 s2 =>
              decide ((s1.bounding_box.axis (boundingBoxFold
                (a :: b :: c :: rest)).longest_axis).start
                ≤ (s2.bounding_box.axis (boundingBoxFold
                  (a :: b :: c :: rest)).longest_axis).start))).length / 2)) with
      | none => rw [hL] at h; simp at h
      | some l =>
        cases hR : BVHNode.newF fuel
            (((a :: b :: c :: rest).mergeSort (fun s1 s2 =>
              decide ((s1.bounding_box.axis (boundingBoxFold
                (a :: b :: c :: rest)).longest_axis).start
                ≤ (s2.bounding_box.axis (boundingBoxFold
                  (a :: b :: c :: rest)).longest_axis).start))).drop
              (((a :: b :: c :: rest).mergeSort (fun s1 s2 =>
                decide ((s1.bounding_box.axis (boundingBoxFold
                  (a :: b :: c :: rest)).longest_axis).start
                  ≤ (s2.bounding_box.axis (boundingBoxFold
                    (a :: b :: c :: rest)).longest_axis).start))).length / 2)) with
        | none => rw [hL, hR] at h; simp at h
        | some r =>
          rw [hL, hR] at h
          simp only [Option.some.injEq] at h
          exact ⟨l, r, h.symm⟩

theorem bvhMatch_eq_some {X Y : Option HTree} {bb : AABB} {tree : HTree}
    (h : (match X, Y with
          | some left, some right => some (HTree.node left right bb)
          | _, _ => none) = some tree) :
    ∃ l r, X = some l ∧ Y = some r ∧ tree = HTree.node l r bb := by
  match X, Y with
  | some l, some r =>
    simp only [Option.some.injEq] at h
    exact ⟨l, r, rfl, rfl, h.symm⟩
  | none, none => simp at h
  | none, some _ => simp at h
  | some _, none => simp at h

/-- C2: in every tree built by `BVHNode::new`, the box stored at each node equals the
exact `AABB::combine` union of its two children's boxes — including the 1-element node
whose two children are the same surface. -/
theorem C2_bvh_node_box_union (fuel : Nat) (objects : List Surface) (tree : HTree)
    (h : BVHNode.newF fuel objects = some tree) : tree.boxInv := by
  induction fuel generalizing objects tree with
  | zero => simp [BVHNode.newF] at h
  | succ fuel ih =>
    match objects with
    | [] => rw [BVHNode.newF_nil] at h; cases h
    | [a] =>
      simp only [BVHNode.newF, Option.some.injEq] at h
      subst h
      refine ⟨?_, trivial, trivial⟩
      show boundingBoxFold [a] = AABB.combine a.bounding_box a.bounding_box
      rw [boundingBoxFold_cons, AABB.combine_self_box]
      show AABB.combine a.bounding_box AABB.EMPTY = _
      rw [AABB.combine_EMPTY_right_box]
    | [a, b] =>
      simp only [BVHNode.newF, Option.some.injEq] at h
      subst h
      refine ⟨?_, trivial, trivial⟩
      show boundingBoxFold [a, b] = AABB.combine a.bounding_box b.bounding_box
      rw [boundingBoxFold_cons, boundingBoxFold_cons]
      congr 1
      show AABB.combine b.bounding_box AABB.EMPTY = _
      rw [AABB.combine_EMPTY_right_box]
    | a :: b :: c :: rest =>
      unfold BVHNode.newF at h
      simp only at h
      obtain ⟨l, r, hL, hR, htree⟩ := bvhMatch_eq_some h
      subst htree
      refine ⟨?_, ih _ _ hL, ih _ _ hR⟩
      obtain ⟨l1, r1, hl1⟩ := BVHNode.newF_some_box _ _ _ hL
      obtain ⟨l2, r2, hl2⟩ := BVHNode.newF_some_box _ _ _ hR
      rw [hl1] at hL
      rw [hl2] at hR
      show boundingBoxFold (a :: b :: c :: rest) = _
      rw [hl1, hl2]
      show _ = AABB.combine
        (boundingBoxFold (((a :: b :: c :: rest).mergeSort _).take _))
        (boundingBoxFold (((a :: b :: c :: rest).mergeSort _).drop _))
      rw [← boundingBoxFold_append, List.take_append_drop]
      exact (boundingBoxFold_perm (List.mergeSort_perm (a :: b :: c :: rest) _)).symm
/-- Witness for C2 at a concrete one-sphere scene. -/
theorem C2_bvh_node_box_union_witness :
    ∃ tree, BVHNode.newF 1 [Surface.sphere (Sphere.new (Vec3.new 0 0 0) 1 (.dielectric 1))]
        = some tree ∧ tree.boxInv := by
  have h : BVHNode.newF 1 [Surface.sphere (Sphere.new (Vec3.new 0 0 0) 1 (.dielectric 1))]
      = some (.node (.surf (Surface.sphere (Sphere.new (Vec3.new 0 0 0) 1 (.dielectric 1))))
          (.surf (Surface.sphere (Sphere.new (Vec3.new 0 0 0) 1 (.dielectric 1))))
          (boundingBoxFold [Surface.sphere (Sphere.new (Vec3.new 0 0 0) 1 (.dielectric 1))])) :=
    rfl
  exact ⟨_, h, C2_bvh_node_box_union 1 _ _ h⟩

/-! ### C4: root selection in `Sphere::hit` -/

theorem HitInfo.set_face_normal_t (s : HitInfo) (r : Ray) (n : Vec3) :
    (s.set_face_normal r n).t = s.t := rfl

theorem HitInfo.set_face_normal_point (s : HitInfo) (r : Ray) (n : Vec3) :
    (s.set_face_normal r n).point = s.point := rfl

theorem HitInfo.set_face_normal_material (s : HitInfo) (r : Ray) (n : Vec3) :
    (s.set_face_normal r n).material = s.material := rfl

/-- C4: `Sphere::hit` reports no hit when the discriminant `h² − a·c` is negative;
otherwise `t1 ≤ t2` and it returns the smaller root `t1` if the query interval
surrounds it, else the larger root `t2` if the interval surrounds that one, else no
hit.  (The hypothesis `a ≠ 0` excludes the degenerate zero ray direction, for which
the source's `f32` division produces NaN and never a hit.) -/
theorem C4_sphere_hit_roots (self : Sphere) (ray : Ray) (t_range : Interval)
    (a h c discriminant t1 t2 : ℝ)
    (ha : a = ray.direction.length_squared)
    (hh : h = Vec3.dot ray.direction (self.center - ray.origin))
    (hc : c = (self.center - ray.origin).length_squared - self.radius * self.radius)
    (hdisc : discriminant = h * h - a * c)
    (ht1 : t1 = (h - Real.sqrt discriminant) / a)
    (ht2 : t2 = (h + Real.sqrt discriminant) / a)
    (hd : a ≠ 0) :
    (discriminant < 0 → self.hit ray t_range = none) ∧
    (0 ≤ discriminant →
      t1 ≤ t2 ∧
      (t_range.surrounds t1 → (self.hit ray t_range).map HitInfo.t = some t1) ∧
      (¬t_range.surrounds t1 → t_range.surrounds t2 →
        (self.hit ray t_range).map HitInfo.t = some t2) ∧
      (¬t_range.surrounds t1 → ¬t_range.surrounds t2 → self.hit ray t_range = none)) := by
  subst ha hh hc hdisc ht1 ht2
  have ha0 : 0 < ray.direction.length_squared :=
    lt_of_le_of_ne (Vec3.length_squared_nonneg _) (Ne.symm hd)
  constructor
  · intro hlt
    simp only [Sphere.hit]
    rw [if_pos hlt]
  · intro hge
    refine ⟨?_, fun hs1 => ?_, fun hs1 hs2 => ?_, fun hs1 hs2 => ?_⟩
    · have hs0 := Real.sqrt_nonneg
        (Vec3.dot ray.direction (self.center - ray.origin) *
            Vec3.dot ray.direction (self.center - ray.origin) -
          ray.direction.length_squared *
            ((self.center - ray.origin).length_squared - self.radius * self.radius))
      exact (div_le_div_iff_of_pos_right ha0).mpr (by linarith)
    · simp only [Sphere.hit]
      rw [if_neg (not_lt.mpr hge), if_pos hs1]
      rfl
    · simp only [Sphere.hit]
      rw [if_neg (not_lt.mpr hge), if_neg hs1, if_pos hs2]
      rfl
    · simp only [Sphere.hit]
      rw [if_neg (not_lt.mpr hge), if_neg hs1, if_neg hs2]

/-- Witness for C4: a unit sphere at the origin hit from `(-3,0,0)` along `+x`; the
discriminant is `1`, the roots are `2` and `4`, and the query interval `(0,3)`
surrounds only the smaller root `2`, which is returned. -/
theorem C4_sphere_hit_roots_witness :
    ((Sphere.new (Vec3.new 0 0 0) 1 (.dielectric 1)).hit
        (Ray.new (Vec3.new (-3) 0 0) (Vec3.new 1 0 0))
        (Interval.new ((0 : ℝ) : EReal) ((3 : ℝ) : EReal))).map HitInfo.t = some 2 := by
  have hsurr : (Interval.new ((0 : ℝ) : EReal) ((3 : ℝ) : EReal)).surrounds 2 := by
    refine ⟨?_, ?_⟩ <;> exact EReal.coe_lt_coe_iff.mpr (by norm_num)
  exact ((C4_sphere_hit_roots (Sphere.new (Vec3.new 0 0 0) 1 (.dielectric 1))
      (Ray.new (Vec3.new (-3) 0 0) (Vec3.new 1 0 0))
      (Interval.new ((0 : ℝ) : EReal) ((3 : ℝ) : EReal))
      1 3 8 1 2 4
      (by norm_num [Sphere.new, Ray.new, Vec3.length_squared])
      (by norm_num [Sphere.new, Ray.new, Vec3.dot, Vec3.sub_def])
      (by norm_num [Sphere.new, Ray.new, Vec3.length_squared, Vec3.sub_def])
      (by norm_num)
      (by rw [Real.sqrt_one]; norm_num)
      (by rw [Real.sqrt_one]; norm_num)
      (by norm_num [Sphere.new, Ray.new, Vec3.length_squared])).2
        (by norm_num)).2.1 hsurr

/-! ### C6: face orientation of the stored hit normal -/

/-- What `HitInfo::set_face_normal` guarantees: `front_face` is set exactly when the
outward normal and the ray direction have negative dot product, and the stored normal's
dot product with the ray direction is never positive. -/
theorem set_face_normal_eval_neg (s : HitInfo) (ray : Ray) (n : Vec3)
    (h : Vec3.dot n ray.direction < 0) :
    s.set_face_normal ray n = { s with front_face := true, normal := n } := by
  simp [HitInfo.set_face_normal, decide_eq_true h]

theorem set_face_normal_eval_nonneg (s : HitInfo) (ray : Ray) (n : Vec3)
    (h : ¬Vec3.dot n ray.direction < 0) :
    s.set_face_normal ray n = { s with front_face := false, normal := -n } := by
  simp [HitInfo.set_face_normal, decide_eq_false h]

theorem set_face_normal_spec (s : HitInfo) (ray : Ray) (n : Vec3) :
    ((s.set_face_normal ray n).front_face = true ↔ Vec3.dot n ray.direction < 0) ∧
    Vec3.dot (s.set_face_normal ray n).normal ray.direction ≤ 0 := by
  by_cases hlt : Vec3.dot n ray.direction < 0
  · rw [set_face_normal_eval_neg s ray n hlt]
    exact ⟨by simpa using hlt, le_of_lt hlt⟩
  · rw [set_face_normal_eval_nonneg s ray n hlt]
    constructor
    · simpa using hlt
    · rw [Vec3.dot_neg_left]
      linarith [not_lt.mp hlt]


theorem sphere_mkinfo_spec (s : Sphere) (ray : Ray) (t : ℝ) :
    let hit_info := { HitInfo.new s.material with t := t, point := ray.point_at t }
    let h := hit_info.set_face_normal ray ((hit_info.point - s.center).normalized)
    ((h.front_face = true ↔ Vec3.dot ((h.point - s.center).normalized) ray.direction < 0) ∧
      Vec3.dot h.normal ray.direction ≤ 0) := by
  intro hit_info h
  constructor
  · rw [HitInfo.set_face_normal_point]
    exact (set_face_normal_spec _ ray _).1
  · exact (set_face_normal_spec _ ray _).2

theorem quad_mkinfo_spec (q : Quad) (ray : Ray) (t : ℝ) :
    let hit_info := { HitInfo.new q.material with t := t, point := ray.point_at t }
    let h := hit_info.set_face_normal ray q.normal
    ((h.front_face = true ↔ Vec3.dot q.normal ray.direction < 0) ∧
      Vec3.dot h.normal ray.direction ≤ 0) := by
  intro hit_info h
  exact ⟨(set_face_normal_spec _ ray _).1, (set_face_normal_spec _ ray _).2⟩

/-- C6: every hit record produced by `Sphere::hit` or `Quad::hit` has `front_face` set
exactly when the outward geometric normal (the unit sphere normal at the hit point,
resp. the quad's plane normal) makes a negative dot product with the incoming ray
direction, and the stored normal always opposes the ray (dot product ≤ 0). -/
theorem C6_face_normal_orientation (ray : Ray) (t_range : Interval) :
    (∀ (s : Sphere) (h : HitInfo), s.hit ray t_range = some h →
      (h.front_face = true ↔ Vec3.dot ((h.point - s.center).normalized) ray.direction < 0) ∧
      Vec3.dot h.normal ray.direction ≤ 0) ∧
    (∀ (q : Quad) (h : HitInfo), q.hit ray t_range = some h →
      (h.front_face = true ↔ Vec3.dot q.normal ray.direction < 0) ∧
      Vec3.dot h.normal ray.direction ≤ 0) := by
  constructor
  · intro s h hs
    simp only [Sphere.hit] at hs
    split_ifs at hs
    all_goals (cases hs; exact sphere_mkinfo_spec s ray _)
  · intro q h hq
    simp only [Quad.hit] at hq
    split_ifs at hq
    all_goals (cases hq; exact quad_mkinfo_spec q ray _)

/-! ### Projection lemmas used to evaluate the definitions on concrete inputs -/

theorem Sphere.new_center (c : Vec3) (r : ℝ) (m : Material) : (Sphere.new c r m).center = c := rfl

theorem Sphere.new_radius (c : Vec3) (r : ℝ) (m : Material) : (Sphere.new c r m).radius = r := rfl

theorem Sphere.new_material (c : Vec3) (r : ℝ) (m : Material) :
    (Sphere.new c r m).material = m := rfl

theorem Ray.new_origin (o d : Vec3) : (Ray.new o d).origin = o := rfl

theorem Ray.new_direction (o d : Vec3) : (Ray.new o d).direction = d := rfl

theorem Interval.new_surrounds (a b : EReal) (v : ℝ) :
    (Interval.new a b).surrounds v ↔ a < (v : EReal) ∧ (v : EReal) < b := Iff.rfl

theorem Interval.new_contains (a b : EReal) (v : ℝ) :
    (Interval.new a b).contains v ↔ a ≤ (v : EReal) ∧ (v : EReal) ≤ b := Iff.rfl

/-- Witness for C6: the concrete hit of the unit sphere at the origin by the ray from
`(-3,0,0)` along `+x` hits at `t = 2` with `front_face = true` and stored normal
`(-1,0,0)` opposing the ray. -/
theorem C6_face_normal_orientation_witness :
    ∃ h, (Sphere.new (Vec3.new 0 0 0) 1 (.dielectric 1)).hit
        (Ray.new (Vec3.new (-3) 0 0) (Vec3.new 1 0 0))
        (Interval.new ((0 : ℝ) : EReal) ((3 : ℝ) : EReal)) = some h ∧
      ((h.front_face = true ↔
          Vec3.dot ((h.point - (Sphere.new (Vec3.new 0 0 0) 1 (.dielectric 1)).center).normalized)
            (Ray.new (Vec3.new (-3) 0 0) (Vec3.new 1 0 0)).direction < 0) ∧
        Vec3.dot h.normal (Ray.new (Vec3.new (-3) 0 0) (Vec3.new 1 0 0)).direction ≤ 0) := by
  have hhit : (Sphere.new (Vec3.new 0 0 0) 1 (.dielectric 1)).hit
      (Ray.new (Vec3.new (-3) 0 0) (Vec3.new 1 0 0))
      (Interval.new ((0 : ℝ) : EReal) ((3 : ℝ) : EReal))
      = some { point := Vec3.new (-1) 0 0, normal := Vec3.new (-1) 0 0,
               material := .dielectric 1, t := 2, u := 0, v := 0, front_face := true } := by
    simp only [Sphere.hit, Sphere.new_center, Sphere.new_radius, Sphere.new_material,
      Ray.new_origin, Ray.new_direction]
    norm_num [Vec3.dot, Vec3.sub_def, Vec3.length_squared]
    norm_num [Interval.new_surrounds, Ray.point_at, Ray.new_origin, Ray.new_direction,
      Vec3.add_def, Vec3.real_mul_def,
      Vec3.mul_real_def, HitInfo.set_face_normal, HitInfo.new, Vec3.normalized, Vec3.length,
      Vec3.length_squared, Vec3.div_def, Vec3.sub_def, Vec3.dot]
  exact ⟨_, hhit, (C6_face_normal_orientation _ _).1 _ _ hhit⟩

/-! ### C9: a Dielectric with ior = 1 never bends rays -/

theorem Vec3.length_squared_neg (v : Vec3) : (-v).length_squared = v.length_squared := by
  rw [Vec3.neg_def]
  unfold Vec3.length_squared
  simp only [Vec3.new_x, Vec3.new_y, Vec3.new_z]
  ring

theorem Vec3.dot_mul_real_left (v : Vec3) (r : ℝ) (n : Vec3) :
    Vec3.dot (v * r) n = Vec3.dot v n * r := by
  rw [Vec3.mul_real_def]
  unfold Vec3.dot
  simp only [Vec3.new_x, Vec3.new_y, Vec3.new_z]
  ring

/-- Vector refraction with ratio 1 is the identity on unit vectors whose cosine with
the (unit) normal is non-negative. -/
theorem refracted_eta_one (u n : Vec3) (c : ℝ) (hc : c = Vec3.dot (-u) n)
    (hu : u.length_squared = 1) (hn : n.length_squared = 1) (hcos0 : 0 ≤ c) :
    Vec3.refracted u n 1 = u := by
  unfold Vec3.refracted
  dsimp only
  rw [← hc]
  have h3 : Vec3.dot u n = -c := by rw [hc, Vec3.dot_neg_left]; ring
  have hls : ((u + c * n) * (1 : ℝ)).length_squared = 1 - c ^ 2 := by
    rw [Vec3.real_mul_def, Vec3.add_def, Vec3.mul_real_def]
    unfold Vec3.length_squared at hu hn ⊢
    unfold Vec3.dot at h3
    simp only [Vec3.new_x, Vec3.new_y, Vec3.new_z]
    linear_combination hu + c ^ 2 * hn + 2 * c * h3
  rw [hls, show (1 : ℝ) - (1 - c ^ 2) = c ^ 2 by ring, Real.sqrt_sq hcos0]
  ext <;>
    · rw [Vec3.real_mul_def, Vec3.add_def, Vec3.mul_real_def, Vec3.real_mul_def,
        Vec3.add_def]
      simp only [Vec3.new_x, Vec3.new_y, Vec3.new_z]
      ring

/-- C9: for a Dielectric with `ior = 1` (so the refraction ratio is 1 on both faces),
given the hit-record invariants (unit normal opposing a non-degenerate incoming
direction), total internal reflection (`ri * sinθ > 1`) never holds, the refracted
direction equals the normalized incoming direction, and `scatter` returns attenuation
`(1,1,1)` with a ray that reflects only on the Fresnel random draw and otherwise
continues exactly along the normalized incoming direction. -/
theorem C9_dielectric_ior_one (rng : RNG) (ray_in : Ray) (hit_info : HitInfo)
    (unit_dir : Vec3) (cos_theta sin_theta ri : ℝ)
    (hri : ri = if hit_info.front_face then 1 / (1 : ℝ) else (1 : ℝ))
    (hud : unit_dir = ray_in.direction.normalized)
    (hcos : cos_theta = Vec3.dot (-unit_dir) hit_info.normal)
    (hsin : sin_theta = Real.sqrt (1 - cos_theta ^ (2 : ℕ)))
    (hn : hit_info.normal.length_squared = 1)
    (hd : ray_in.direction.length_squared ≠ 0)
    (hopp : Vec3.dot hit_info.normal ray_in.direction ≤ 0) :
    ¬(ri * sin_theta > 1) ∧
    Vec3.refracted unit_dir hit_info.normal ri = unit_dir ∧
    Material.scatter (.dielectric 1) rng ray_in hit_info
      = some (Vec3.ONE, Ray.new hit_info.point
          (if reflectance cos_theta ri > rng.uniform
           then Vec3.reflected unit_dir hit_info.normal else unit_dir)) := by
  have hri1 : ri = 1 := by rw [hri]; split <;> norm_num
  have hu1 : unit_dir.length_squared = 1 := by
    rw [hud]; exact Vec3.length_squared_normalized _ hd
  have hcos2 : cos_theta ^ 2 ≤ 1 := by
    have hb := Vec3.dot_sq_le (-unit_dir) hit_info.normal
    rw [Vec3.length_squared_neg, hu1, hn] at hb
    rw [hcos]
    linarith
  have hcos0 : 0 ≤ cos_theta := by
    rw [hcos, hud, Vec3.dot_neg_left]
    unfold Vec3.normalized Vec3.length
    rw [Vec3.div_def, Vec3.dot_mul_real_left]
    have hdot : Vec3.dot ray_in.direction hit_info.normal ≤ 0 := by
      rw [Vec3.dot_comm]; exact hopp
    have hinv : 0 ≤ 1 / Real.sqrt ray_in.direction.length_squared := by
      positivity
    nlinarith
  have hsin01 : 0 ≤ sin_theta ∧ sin_theta ≤ 1 := by
    constructor
    · rw [hsin]; exact Real.sqrt_nonneg _
    · rw [hsin]
      exact Real.sqrt_le_one.mpr (by nlinarith [sq_nonneg cos_theta])
  have part1 : ¬(ri * sin_theta > 1) := by
    rw [hri1, one_mul]
    exact not_lt.mpr hsin01.2
  have part2 : Vec3.refracted unit_dir hit_info.normal ri = unit_dir := by
    rw [hri1]
    exact refracted_eta_one unit_dir hit_info.normal cos_theta hcos hu1 hn hcos0
  refine ⟨part1, part2, ?_⟩
  subst hri hud hcos hsin
  simp only [Material.scatter]
  by_cases hq : reflectance (Vec3.dot (-ray_in.direction.normalized) hit_info.normal)
      (if hit_info.front_face then (1 : ℝ) / 1 else 1) > rng.uniform
  · rw [if_pos (Or.inr hq), if_pos hq]
  · rw [if_neg (not_or.mpr ⟨part1, hq⟩), if_neg hq, part2]

/-- Witness for C9: incoming direction `(0,0,-1)` against unit normal `(0,0,1)`:
`cosθ = 1`, `sinθ = 0`, no total internal reflection, and the refracted direction is
the incoming direction itself. -/
theorem C9_dielectric_ior_one_witness :
    ¬((1 : ℝ) * 0 > 1) ∧
    Vec3.refracted (Vec3.new 0 0 (-1)) (Vec3.new 0 0 1) 1 = Vec3.new 0 0 (-1) ∧
    Material.scatter (.dielectric 1) ⟨Vec3.ZERO, 0⟩
        (Ray.new Vec3.ZERO (Vec3.new 0 0 (-1)))
        { HitInfo.new (.dielectric 1) with normal := Vec3.new 0 0 1 }
      = some (Vec3.ONE, Ray.new ({ HitInfo.new (.dielectric 1) with
            normal := Vec3.new 0 0 1 } : HitInfo).point
          (if reflectance 1 1 > (0 : ℝ)
           then Vec3.reflected (Vec3.new 0 0 (-1)) (Vec3.new 0 0 1)
           else Vec3.new 0 0 (-1))) := by
  refine C9_dielectric_ior_one ⟨Vec3.ZERO, 0⟩ (Ray.new Vec3.ZERO (Vec3.new 0 0 (-1)))
      { HitInfo.new (.dielectric 1) with normal := Vec3.new 0 0 1 }
      (Vec3.new 0 0 (-1)) 1 0 1 ?_ ?_ ?_ ?_ ?_ ?_ ?_
  · norm_num [HitInfo.new]
  · norm_num [Ray.new_direction, Vec3.normalized, Vec3.length, Vec3.length_squared,
      Vec3.div_def, Vec3.mul_real_def]
  · norm_num [Vec3.dot, Vec3.neg_def]
  · norm_num
  · norm_num [Vec3.length_squared]
  · norm_num [Ray.new_direction, Vec3.length_squared]
  · norm_num [Vec3.dot, Ray.new_direction]

/-! ### C1: equivalence of BVH traversal and linear list scan

The development below characterizes both `HittableList::hit` and `BVHNode::hit`
as computing the closest surface hit, and derives the equivalence.  The
`restrictHit` combinator expresses how a surface hit against a narrowed query
interval `(start, c)` relates to the hit against the full interval. -/

/-- Restricting an optional hit to those strictly closer than `c`. -/
def restrictHit (c : EReal) : Option HitInfo → Option HitInfo
  | some h => if (h.t : EReal) < c then some h else none
  | none => none

theorem restrictHit_some (c : EReal) (h : HitInfo) :
    restrictHit c (some h) = if (h.t : EReal) < c then some h else none := rfl

theorem restrictHit_none (c : EReal) : restrictHit c none = none := rfl

/-- Core of the narrowing argument shared by the two root tests of `Sphere::hit`:
testing two candidate parameters `T1 ≤ T2` against the narrowed interval is the
restriction of testing them against the full interval. -/
theorem hit_char_core (s0 e0 c : EReal) (hc : c ≤ e0) (T1 T2 : ℝ) (hT : T1 ≤ T2)
    (H1 H2 : HitInfo) (hM1 : H1.t = T1) (hM2 : H2.t = T2) :
    (if (Interval.new s0 c).surrounds T1 then some H1
     else if (Interval.new s0 c).surrounds T2 then some H2 else none)
      = restrictHit c
          (if (Interval.new s0 e0).surrounds T1 then some H1
           else if (Interval.new s0 e0).surrounds T2 then some H2 else none) := by
  simp only [Interval.new_surrounds]
  by_cases h1c : s0 < (T1 : EReal) ∧ (T1 : EReal) < c
  · rw [if_pos h1c, if_pos ⟨h1c.1, lt_of_lt_of_le h1c.2 hc⟩, restrictHit_some,
      if_pos (by rw [hM1]; exact h1c.2)]
  · rw [if_neg h1c]
    by_cases h2c : s0 < (T2 : EReal) ∧ (T2 : EReal) < c
    · have hT1e : ¬(s0 < (T1 : EReal) ∧ (T1 : EReal) < e0) := by
        intro hfull
        have hcle : c ≤ (T1 : EReal) := le_of_not_lt fun hlt => h1c ⟨hfull.1, hlt⟩
        have h21 : (T2 : EReal) < (T1 : EReal) := lt_of_lt_of_le h2c.2 hcle
        exact absurd hT (not_le.mpr (by exact_mod_cast h21))
      rw [if_pos h2c, if_neg hT1e, if_pos ⟨h2c.1, lt_of_lt_of_le h2c.2 hc⟩, restrictHit_some,
        if_pos (by rw [hM2]; exact h2c.2)]
    · rw [if_neg h2c]
      by_cases h1e : s0 < (T1 : EReal) ∧ (T1 : EReal) < e0
      · rw [if_pos h1e, restrictHit_some,
          if_neg (by rw [hM1]; exact fun hlt => h1c ⟨h1e.1, hlt⟩)]
      · rw [if_neg h1e]
        by_cases h2e : s0 < (T2 : EReal) ∧ (T2 : EReal) < e0
        · rw [if_pos h2e, restrictHit_some,
            if_neg (by rw [hM2]; exact fun hlt => h2c ⟨h2e.1, hlt⟩)]
        · rw [if_neg h2e, restrictHit_none]

/-- The two candidate roots of `Sphere::hit` are ordered: the one built with
`h - sqrt disc` is never larger than the one built with `h + sqrt disc`
(also in the degenerate `a = 0` case, where both divisions yield the same junk value). -/
theorem sphere_roots_le (a hv disc : ℝ) (ha : 0 ≤ a) :
    (hv - Real.sqrt disc) / a ≤ (hv + Real.sqrt disc) / a := by
  rcases eq_or_lt_of_le ha with h0 | hpos
  · rw [← h0, div_zero, div_zero]
  · exact (div_le_div_iff_of_pos_right hpos).mpr
      (by linarith [Real.sqrt_nonneg disc])

theorem Sphere.hit_char (s : Sphere) (ray : Ray) (s0 e0 c : EReal) (hc : c ≤ e0) :
    s.hit ray (Interval.new s0 c) = restrictHit c (s.hit ray (Interval.new s0 e0)) := by
  simp only [Sphere.hit]
  by_cases hdisc : Vec3.dot ray.direction (s.center - ray.origin) *
      Vec3.dot ray.direction (s.center - ray.origin) -
      ray.direction.length_squared *
        ((s.center - ray.origin).length_squared - s.radius * s.radius) < 0
  · rw [if_pos hdisc, if_pos hdisc, restrictHit_none]
  · rw [if_neg hdisc, if_neg hdisc]
    exact hit_char_core s0 e0 c hc _ _
      (sphere_roots_le _ _ _ (Vec3.length_squared_nonneg _)) _ _ rfl rfl

theorem Quad.hit_char_quad (q : Quad) (ray : Ray) (s0 e0 c : EReal) (hc : c ≤ e0) :
    q.hit ray (Interval.new s0 c) = restrictHit c (q.hit ray (Interval.new s0 e0)) := by
  simp only [Quad.hit]
  by_cases hden : |Vec3.dot q.normal ray.direction| < 1e-8
  · rw [if_pos hden, if_pos hden, restrictHit_none]
  · rw [if_neg hden, if_neg hden]
    simp only [Interval.new_surrounds]
    set T := (q.d - Vec3.dot q.normal ray.origin) / Vec3.dot q.normal ray.direction with hT
    by_cases htc : s0 < (T : EReal) ∧ (T : EReal) < c
    · rw [if_neg (not_not.mpr htc), if_neg (not_not.mpr ⟨htc.1, lt_of_lt_of_le htc.2 hc⟩)]
      by_cases hab : ¬Quad.UNIT_INTERVAL.contains
            (Vec3.dot q.w (Vec3.cross (ray.point_at T - q.origin) q.v)) ∨
          ¬Quad.UNIT_INTERVAL.contains
            (Vec3.dot q.w (Vec3.cross q.u (ray.point_at T - q.origin)))
      · rw [if_pos hab, restrictHit_none]
      · rw [if_neg hab, restrictHit_some, HitInfo.set_face_normal_t]
        dsimp only
        rw [if_pos htc.2]
    · rw [if_pos htc]
      by_cases hte : s0 < (T : EReal) ∧ (T : EReal) < e0
      · rw [if_neg (not_not.mpr hte)]
        by_cases hab : ¬Quad.UNIT_INTERVAL.contains
              (Vec3.dot q.w (Vec3.cross (ray.point_at T - q.origin) q.v)) ∨
            ¬Quad.UNIT_INTERVAL.contains
              (Vec3.dot q.w (Vec3.cross q.u (ray.point_at T - q.origin)))
        · rw [if_pos hab, restrictHit_none]
        · rw [if_neg hab, restrictHit_some, HitInfo.set_face_normal_t]
          dsimp only
          rw [if_neg fun hlt => htc ⟨hte.1, hlt⟩]
      · rw [if_pos hte, restrictHit_none]

theorem Surface.hit_char_surface (s : Surface) (ray : Ray) (s0 e0 c : EReal) (hc : c ≤ e0) :
    s.hit ray (Interval.new s0 c) = restrictHit c (s.hit ray (Interval.new s0 e0)) := by
  cases s with
  | sphere sp => exact sp.hit_char ray s0 e0 c hc
  | quad q => exact q.hit_char_quad ray s0 e0 c hc

/-- Any hit returned by a surface lies strictly inside the query interval. -/
theorem Surface.hit_t_bounds (s : Surface) (ray : Ray) (s0 e : EReal) (h : HitInfo)
    (hh : s.hit ray (Interval.new s0 e) = some h) :
    s0 < (h.t : EReal) ∧ (h.t : EReal) < e := by
  cases s with
  | sphere sp =>
    simp only [Surface.hit, Sphere.hit] at hh
    split_ifs at hh with hd h1 h2
    all_goals first
      | (cases hh; exact h1)
      | (cases hh; exact h2)
      | cases hh
  | quad q =>
    simp only [Surface.hit, Quad.hit] at hh
    split_ifs at hh with hden hts hab
    all_goals first
      | (cases hh; exact hts)
      | (cases hh; exact not_not.mp hts)
      | cases hh

/-- Any hit returned by a surface has its point on the ray at its parameter. -/
theorem Surface.hit_point_eq (s : Surface) (ray : Ray) (q : Interval) (h : HitInfo)
    (hh : s.hit ray q = some h) : h.point = ray.point_at h.t := by
  cases s with
  | sphere sp =>
    simp only [Surface.hit, Sphere.hit] at hh
    split_ifs at hh
    all_goals first
      | (cases hh; rfl)
      | cases hh
  | quad qd =>
    simp only [Surface.hit, Quad.hit] at hh
    split_ifs at hh
    all_goals first
      | (cases hh; rfl)
      | cases hh

/-! ### The slab test accepts rays through the strict interior of a finite box -/

theorem ereal_coe_min (a b : ℝ) : ((min a b : ℝ) : EReal) = min (a : EReal) (b : EReal) := by
  rcases le_total a b with h | h
  · rw [min_eq_left h, min_eq_left (EReal.coe_le_coe_iff.mpr h)]
  · rw [min_eq_right h, min_eq_right (EReal.coe_le_coe_iff.mpr h)]

theorem ereal_coe_max (a b : ℝ) : ((max a b : ℝ) : EReal) = max (a : EReal) (b : EReal) := by
  rcases le_total a b with h | h
  · rw [max_eq_right h, max_eq_right (EReal.coe_le_coe_iff.mpr h)]
  · rw [max_eq_left h, max_eq_left (EReal.coe_le_coe_iff.mpr h)]

theorem sorted_pair_fst {α : Type} [LinearOrder α] (x y : α) :
    (if x ≤ y then (x, y) else (y, x)).1 = min x y := by
  split_ifs with h
  · rw [min_eq_left h]
  · rw [min_eq_right (le_of_lt (not_le.mp h))]

theorem sorted_pair_snd {α : Type} [LinearOrder α] (x y : α) :
    (if x ≤ y then (x, y) else (y, x)).2 = max x y := by
  split_ifs with h
  · rw [max_eq_right h]
  · rw [max_eq_left (le_of_lt (not_le.mp h))]

theorem Ray.point_at_idx (ray : Ray) (t : ℝ) (i : Nat) :
    (ray.point_at t).idx i = ray.origin.idx i + ray.direction.idx i * t := by
  rcases i with _ | _ | _ | n <;>
    simp only [Ray.point_at, Vec3.add_def, Vec3.real_mul_def, Vec3.idx, Vec3.new_x,
      Vec3.new_y, Vec3.new_z] <;>
    try ring

theorem hitAxisRange_keeps (box : AABB) (ray : Ray) (t_range : Interval) (i : Nat)
    (a b : ℝ) (haxis : box.axis i = Interval.new (a : ℝ) (b : ℝ))
    (hd : ray.direction.idx i ≠ 0) (t : ℝ)
    (hpa : a < (ray.point_at t).idx i) (hpb : (ray.point_at t).idx i < b)
    (hs : t_range.start < (t : EReal)) (he : (t : EReal) < t_range.stop) :
    (box.hitAxisRange ray t_range i).start < (t : EReal) ∧
    (t : EReal) < (box.hitAxisRange ray t_range i).stop := by
  have hpt := ray.point_at_idx t i
  set o := ray.origin.idx i with ho
  set d := ray.direction.idx i with hdd
  have hbounds : min ((a - o) / d) ((b - o) / d) < t ∧ t < max ((a - o) / d) ((b - o) / d) := by
    rw [hpt] at hpa hpb
    rcases lt_or_gt_of_ne hd with hneg | hpos
    · constructor
      · exact lt_of_le_of_lt (min_le_right _ _)
          ((div_lt_iff_of_neg hneg).mpr (by nlinarith))
      · exact lt_of_lt_of_le ((lt_div_iff_of_neg hneg).mpr (by nlinarith)) (le_max_left _ _)
    · constructor
      · exact lt_of_le_of_lt (min_le_left _ _) ((div_lt_iff₀ hpos).mpr (by nlinarith))
      · exact lt_of_lt_of_le ((lt_div_iff₀ hpos).mpr (by nlinarith)) (le_max_right _ _)
  unfold AABB.hitAxisRange
  rw [haxis]
  dsimp only [Interval.new_start, Interval.new_stop]
  have hcoe : ((a : EReal) - (o : EReal)) / (d : EReal) = (((a - o) / d : ℝ) : EReal) := by
    rw [← EReal.coe_sub, ← EReal.coe_div]
  have hcoe' : ((b : EReal) - (o : EReal)) / (d : EReal) = (((b - o) / d : ℝ) : EReal) := by
    rw [← EReal.coe_sub, ← EReal.coe_div]
  rw [hcoe, hcoe', sorted_pair_fst, sorted_pair_snd, ← ereal_coe_min, ← ereal_coe_max]
  constructor
  · exact max_lt hs (EReal.coe_lt_coe_iff.mpr hbounds.1)
  · exact lt_min he (EReal.coe_lt_coe_iff.mpr hbounds.2)

theorem hitLoop_true_of (box : AABB) (ray : Ray) (t : ℝ) (is : List Nat) :
    ∀ (t_range : Interval),
      (∀ i ∈ is, ∃ a b : ℝ, box.axis i = Interval.new (a : ℝ) (b : ℝ) ∧
        ray.direction.idx i ≠ 0 ∧ a < (ray.point_at t).idx i ∧ (ray.point_at t).idx i < b) →
      t_range.start < (t : EReal) → (t : EReal) < t_range.stop →
      box.hitLoop ray t_range is = true := by
  induction is with
  | nil => intro _ _ _ _; rfl
  | cons i rest ih =>
    intro t_range hax hs he
    obtain ⟨a, b, haxis, hd, hpa, hpb⟩ := hax i (List.mem_cons_self _ _)
    have hkeep := hitAxisRange_keeps box ray t_range i a b haxis hd t hpa hpb hs he
    unfold AABB.hitLoop
    rw [if_neg (not_le.mpr (lt_trans hkeep.1 hkeep.2))]
    exact ih _ (fun j hj => hax j (List.mem_cons_of_mem _ hj)) hkeep.1 hkeep.2

/-- A box with finite (real) endpoints on every axis. -/
def RealForm (box : AABB) : Prop :=
  ∃ x1 x2 y1 y2 z1 z2 : ℝ,
    box = AABB.new (Interval.new (x1 : ℝ) (x2 : ℝ)) (Interval.new (y1 : ℝ) (y2 : ℝ))
      (Interval.new (z1 : ℝ) (z2 : ℝ))

/-- A point strictly inside a box on every axis. -/
def insideStrict (box : AABB) (p : Vec3) : Prop :=
  (box.x.start < (p.x : EReal) ∧ (p.x : EReal) < box.x.stop) ∧
  (box.y.start < (p.y : EReal) ∧ (p.y : EReal) < box.y.stop) ∧
  (box.z.start < (p.z : EReal) ∧ (p.z : EReal) < box.z.stop)

theorem box_hit_of_insideStrict (box : AABB) (ray : Ray) (t : ℝ) (s e : EReal)
    (hreal : RealForm box)
    (hdx : ray.direction.x ≠ 0) (hdy : ray.direction.y ≠ 0) (hdz : ray.direction.z ≠ 0)
    (hin : insideStrict box (ray.point_at t))
    (hs : s < (t : EReal)) (he : (t : EReal) < e) :
    box.hit ray (Interval.new s e) = true := by
  obtain ⟨x1, x2, y1, y2, z1, z2, rfl⟩ := hreal
  obtain ⟨⟨hx1, hx2⟩, ⟨hy1, hy2⟩, ⟨hz1, hz2⟩⟩ := hin
  unfold AABB.hit
  refine hitLoop_true_of _ _ t [0, 1, 2] _ ?_ hs he
  intro i hi
  have hi3 : i = 0 ∨ i = 1 ∨ i = 2 := by simpa using hi
  rcases hi3 with rfl | rfl | rfl
  · exact ⟨x1, x2, rfl, hdx, EReal.coe_lt_coe_iff.mp hx1, EReal.coe_lt_coe_iff.mp hx2⟩
  · exact ⟨y1, y2, rfl, hdy, EReal.coe_lt_coe_iff.mp hy1, EReal.coe_lt_coe_iff.mp hy2⟩
  · exact ⟨z1, z2, rfl, hdz, EReal.coe_lt_coe_iff.mp hz1, EReal.coe_lt_coe_iff.mp hz2⟩

/-! ### The closest-hit specification -/

/-- The primitive surfaces at the leaves of a BVH tree. -/
def HTree.leaves : HTree → List Surface
  | .surf s => [s]
  | .node l r _ => l.leaves ++ r.leaves

/-- `res` is the closest hit among `objs` (full-interval hit distances restricted to
those strictly below `e`): `none` iff no surface hit falls below `e`, otherwise a hit
of one of the surfaces, below `e`, and of minimal distance among those below `e`. -/
def IsClosestHit (objs : List Surface) (ray : Ray) (q : Interval) (e : EReal) :
    Option HitInfo → Prop
  | none => ∀ s ∈ objs, ∀ h, s.hit ray q = some h → ¬((h.t : EReal) < e)
  | some h' => (∃ s ∈ objs, s.hit ray q = some h') ∧ (h'.t : EReal) < e ∧
      ∀ s ∈ objs, ∀ h, s.hit ray q = some h → (h.t : EReal) < e → h'.t ≤ h.t

theorem IsClosestHit_unique_t {objs1 objs2 : List Surface} {ray : Ray} {q : Interval}
    {e : EReal} {r1 r2 : Option HitInfo}
    (hmem : ∀ s, s ∈ objs1 ↔ s ∈ objs2)
    (h1 : IsClosestHit objs1 ray q e r1) (h2 : IsClosestHit objs2 ray q e r2) :
    r1.map HitInfo.t = r2.map HitInfo.t := by
  match r1, r2 with
  | none, none => rfl
  | none, some h' =>
    obtain ⟨⟨s, hs, hhit⟩, hlt, _⟩ := h2
    exact absurd hlt (h1 s ((hmem s).mpr hs) h' hhit)
  | some h', none =>
    obtain ⟨⟨s, hs, hhit⟩, hlt, _⟩ := h1
    exact absurd hlt (h2 s ((hmem s).mp hs) h' hhit)
  | some h1', some h2' =>
    obtain ⟨⟨s1, hs1, hhit1⟩, hlt1, hmin1⟩ := h1
    obtain ⟨⟨s2, hs2, hhit2⟩, hlt2, hmin2⟩ := h2
    have ha := hmin1 s2 ((hmem s2).mpr hs2) h2' hhit2 hlt2
    have hb := hmin2 s1 ((hmem s1).mp hs1) h1' hhit1 hlt1
    simp only [Option.map_some']
    rw [le_antisymm ha hb]

/-- Invariant of the fold inside `HittableList::hit`: starting from an accumulator
whose closest-so-far bound `c` is either the initial `e0` or the accumulated hit's
distance, the fold returns either the untouched accumulator (no candidate below `c`)
or the closest hit below `c`. -/
theorem listFold_closest (ray : Ray) (s0 e0 : EReal) (objs : List Surface) :
    ∀ (acc : Option HitInfo) (c : EReal),
      ((acc = none ∧ c = e0) ∨
        (∃ h0, acc = some h0 ∧ c = (h0.t : EReal) ∧ (h0.t : EReal) ≤ e0)) →
      ∀ res, res = objs.foldl (fun acc obj =>
          match obj.hit ray (Interval.new s0 acc.2) with
          | some info => (some info, (info.t : EReal))
          | none => acc) (acc, c) →
      ((res.1 = acc ∧ ∀ s ∈ objs, ∀ h, s.hit ray (Interval.new s0 e0) = some h →
          ¬((h.t : EReal) < c)) ∨
       (∃ h', res.1 = some h' ∧ (h'.t : EReal) < c ∧
          (∃ s ∈ objs, s.hit ray (Interval.new s0 e0) = some h') ∧
          ∀ s ∈ objs, ∀ h, s.hit ray (Interval.new s0 e0) = some h →
            (h.t : EReal) < c → h'.t ≤ h.t)) := by
  induction objs with
  | nil =>
    intro acc c _ res hres
    subst hres
    exact Or.inl ⟨rfl, by simp⟩
  | cons s rest ih =>
    intro acc c hinv res hres
    have hce : c ≤ e0 := by
      rcases hinv with ⟨_, rfl⟩ | ⟨h0, _, rfl, hle⟩
      · exact le_refl _
      · exact hle
    rw [List.foldl_cons] at hres
    dsimp only at hres
    rw [Surface.hit_char_surface s ray s0 e0 c hce] at hres
    rcases hfull : s.hit ray (Interval.new s0 e0) with _ | fh
    · rw [hfull, restrictHit_none] at hres
      rcases ih acc c hinv res hres with ⟨hr, hno⟩ | ⟨h', hr, hlt, hmem, hmin⟩
      · refine Or.inl ⟨hr, ?_⟩
        intro s' hs' h hh
        rcases List.mem_cons.mp hs' with rfl | hs'
        · rw [hfull] at hh; cases hh
        · exact hno s' hs' h hh
      · refine Or.inr ⟨h', hr, hlt, ?_, ?_⟩
        · obtain ⟨s', hs', hh⟩ := hmem
          exact ⟨s', List.mem_cons_of_mem _ hs', hh⟩
        · intro s' hs' h hh hhlt
          rcases List.mem_cons.mp hs' with rfl | hs'
          · rw [hfull] at hh; cases hh
          · exact hmin s' hs' h hh hhlt
    · rw [hfull, restrictHit_some] at hres
      by_cases hlt : (fh.t : EReal) < c
      · rw [if_pos hlt] at hres
        have hfb := Surface.hit_t_bounds s ray s0 e0 fh hfull
        rcases ih (some fh) ((fh.t : EReal))
            (Or.inr ⟨fh, rfl, rfl, le_of_lt hfb.2⟩) res hres with
          ⟨hr, hno⟩ | ⟨h', hr, hlt', hmem, hmin⟩
        · refine Or.inr ⟨fh, hr, hlt, ⟨s, List.mem_cons_self _ _, hfull⟩, ?_⟩
          intro s' hs' h hh hhlt
          rcases List.mem_cons.mp hs' with rfl | hs'
          · rw [hfull] at hh
            cases hh
            exact le_refl _
          · have := hno s' hs' h hh
            have hreal : ¬(h.t < fh.t) := fun hc => this (EReal.coe_lt_coe_iff.mpr hc)
            exact le_of_not_lt hreal
        · refine Or.inr ⟨h', hr, lt_trans hlt' hlt, ?_, ?_⟩
          · obtain ⟨s', hs', hh⟩ := hmem
            exact ⟨s', List.mem_cons_of_mem _ hs', hh⟩
          · intro s' hs' h hh hhlt
            rcases List.mem_cons.mp hs' with rfl | hs'
            · rw [hfull] at hh
              cases hh
              exact le_of_lt (EReal.coe_lt_coe_iff.mp hlt')
            · by_cases hcase : (h.t : EReal) < (fh.t : EReal)
              · exact hmin s' hs' h hh hcase
              · have h1 : h'.t < fh.t := EReal.coe_lt_coe_iff.mp hlt'
                have h2 : fh.t ≤ h.t := EReal.coe_le_coe_iff.mp (le_of_not_lt hcase)
                linarith
      · rw [if_neg hlt] at hres
        rcases ih acc c hinv res hres with ⟨hr, hno⟩ | ⟨h', hr, hlt', hmem, hmin⟩
        · refine Or.inl ⟨hr, ?_⟩
          intro s' hs' h hh
          rcases List.mem_cons.mp hs' with rfl | hs'
          · rw [hfull] at hh
            cases hh
            exact hlt
          · exact hno s' hs' h hh
        · refine Or.inr ⟨h', hr, hlt', ?_, ?_⟩
          · obtain ⟨s', hs', hh⟩ := hmem
            exact ⟨s', List.mem_cons_of_mem _ hs', hh⟩
          · intro s' hs' h hh hhlt
            rcases List.mem_cons.mp hs' with rfl | hs'
            · rw [hfull] at hh
              cases hh
              exact absurd hhlt hlt
            · exact hmin s' hs' h hh hhlt

/-- `HittableList::hit` computes the closest hit over its objects. -/
theorem HittableList.hit_isClosest (objs : List Surface) (b : AABB) (ray : Ray)
    (s0 e0 : EReal) :
    IsClosestHit objs ray (Interval.new s0 e0) e0
      ((HittableList.mk objs b).hit ray (Interval.new s0 e0)) := by
  have hfold := listFold_closest ray s0 e0 objs none e0 (Or.inl ⟨rfl, rfl⟩)
      (objs.foldl (fun acc obj =>
          match obj.hit ray (Interval.new s0 acc.2) with
          | some info => (some info, (info.t : EReal))
          | none => acc) (none, e0)) rfl
  have heq : (HittableList.mk objs b).hit ray (Interval.new s0 e0)
      = (objs.foldl (fun acc obj =>
          match obj.hit ray (Interval.new s0 acc.2) with
          | some info => (some info, (info.t : EReal))
          | none => acc) (none, e0)).1 := rfl
  rw [heq]
  rcases hfold with ⟨hr, hno⟩ | ⟨h', hr, hlt, hmem, hmin⟩
  · rw [hr]
    exact hno
  · rw [hr]
    exact ⟨hmem, hlt, hmin⟩

/-! ### Well-formedness of built BVH trees -/

/-- `inner` is contained in `outer` axis-wise. -/
def boxLE (inner outer : AABB) : Prop :=
  (outer.x.start ≤ inner.x.start ∧ inner.x.stop ≤ outer.x.stop) ∧
  (outer.y.start ≤ inner.y.start ∧ inner.y.stop ≤ outer.y.stop) ∧
  (outer.z.start ≤ inner.z.start ∧ inner.z.stop ≤ outer.z.stop)

theorem insideStrict_mono {inner outer : AABB} {p : Vec3} (hle : boxLE inner outer)
    (hin : insideStrict inner p) : insideStrict outer p := by
  obtain ⟨⟨hx1, hx2⟩, ⟨hy1, hy2⟩, ⟨hz1, hz2⟩⟩ := hle
  obtain ⟨⟨ix1, ix2⟩, ⟨iy1, iy2⟩, ⟨iz1, iz2⟩⟩ := hin
  exact ⟨⟨lt_of_le_of_lt hx1 ix1, lt_of_lt_of_le ix2 hx2⟩,
    ⟨lt_of_le_of_lt hy1 iy1, lt_of_lt_of_le iy2 hy2⟩,
    ⟨lt_of_le_of_lt hz1 iz1, lt_of_lt_of_le iz2 hz2⟩⟩

theorem boxLE_combine_left (a b : AABB) : boxLE a (AABB.combine a b) := by
  unfold AABB.combine boxLE
  simp only [Interval.combine_eq]
  exact ⟨⟨min_le_left _ _, le_max_left _ _⟩, ⟨min_le_left _ _, le_max_left _ _⟩,
    ⟨min_le_left _ _, le_max_left _ _⟩⟩

theorem boxLE_combine_right (a b : AABB) : boxLE b (AABB.combine a b) := by
  unfold AABB.combine boxLE
  simp only [Interval.combine_eq]
  exact ⟨⟨min_le_right _ _, le_max_right _ _⟩, ⟨min_le_right _ _, le_max_right _ _⟩,
    ⟨min_le_right _ _, le_max_right _ _⟩⟩

theorem boxLE_trans {a b c : AABB} (h1 : boxLE a b) (h2 : boxLE b c) : boxLE a c := by
  obtain ⟨⟨hx1, hx2⟩, ⟨hy1, hy2⟩, ⟨hz1, hz2⟩⟩ := h1
  obtain ⟨⟨gx1, gx2⟩, ⟨gy1, gy2⟩, ⟨gz1, gz2⟩⟩ := h2
  exact ⟨⟨le_trans gx1 hx1, le_trans hx2 gx2⟩, ⟨le_trans gy1 hy1, le_trans hy2 gy2⟩,
    ⟨le_trans gz1 hz1, le_trans hz2 gz2⟩⟩

theorem mem_boxLE_fold (objs : List Surface) (s : Surface) (hs : s ∈ objs) :
    boxLE s.bounding_box (boundingBoxFold objs) := by
  induction objs with
  | nil => cases hs
  | cons x rest ih =>
    rw [boundingBoxFold_cons]
    rcases List.mem_cons.mp hs with rfl | hs'
    · exact boxLE_combine_left _ _
    · exact boxLE_trans (ih hs') (boxLE_combine_right _ _)

theorem from_points_realForm (a b : Vec3) : RealForm (AABB.from_points a b) := by
  unfold AABB.from_points RealForm
  split_ifs <;> exact ⟨_, _, _, _, _, _, rfl⟩

theorem combine_realForm {a b : AABB} (ha : RealForm a) (hb : RealForm b) :
    RealForm (AABB.combine a b) := by
  obtain ⟨x1, x2, y1, y2, z1, z2, rfl⟩ := ha
  obtain ⟨u1, u2, v1, v2, w1, w2, rfl⟩ := hb
  refine ⟨min x1 u1, max x2 u2, min y1 v1, max y2 v2, min z1 w1, max z2 w2, ?_⟩
  simp [AABB.combine, AABB.new, Interval.combine_eq, Interval.new, ereal_coe_min,
    ereal_coe_max]

theorem Sphere.new_realForm (c : Vec3) (r : ℝ) (m : Material) :
    RealForm (Sphere.new c r m).bounding_box :=
  from_points_realForm _ _

theorem Quad.new_realForm_quad (origin u v : Vec3) (m : Material) :
    RealForm (Quad.new origin u v m).bounding_box :=
  combine_realForm (from_points_realForm _ _) (from_points_realForm _ _)

theorem boundingBoxFold_realForm (objs : List Surface) (hne : objs ≠ [])
    (hall : ∀ s ∈ objs, RealForm s.bounding_box) : RealForm (boundingBoxFold objs) := by
  induction objs with
  | nil => cases hne rfl
  | cons x rest ih =>
    rw [boundingBoxFold_cons]
    rcases hrest : rest with _ | ⟨y, rest'⟩
    · have : boundingBoxFold ([] : List Surface) = AABB.EMPTY := rfl
      rw [this, AABB.combine_EMPTY_right_box]
      exact hall x (List.mem_cons_self _ _)
    · rw [← hrest]
      refine combine_realForm (hall x (List.mem_cons_self _ _)) (ih ?_ ?_)
      · rw [hrest]; exact List.cons_ne_nil _ _
      · exact fun s hs => hall s (List.mem_cons_of_mem _ hs)

/-- The well-formedness invariant the traversal needs at each internal node: the
stored box has finite endpoints and contains the box of every leaf surface below. -/
def TreeWF : HTree → Prop
  | .surf _ => True
  | .node l r box => TreeWF l ∧ TreeWF r ∧ RealForm box ∧
      (∀ s ∈ l.leaves ++ r.leaves, boxLE s.bounding_box box)

/-- The leaves of a built tree are exactly the input surfaces (as sets; the 1-element
node duplicates its surface). -/
theorem BVHNode.newF_leaves_mem (fuel : Nat) (objects : List Surface) (tree : HTree)
    (h : BVHNode.newF fuel objects = some tree) :
    ∀ s, s ∈ tree.leaves ↔ s ∈ objects := by
  induction fuel generalizing objects tree with
  | zero => simp [BVHNode.newF] at h
  | succ fuel ih =>
    match objects with
    | [] => rw [BVHNode.newF_nil] at h; cases h
    | [a] =>
      simp only [BVHNode.newF, Option.some.injEq] at h
      subst h
      intro s
      simp [HTree.leaves]
    | [a, b] =>
      simp only [BVHNode.newF, Option.some.injEq] at h
      subst h
      intro s
      simp [HTree.leaves]
    | a :: b :: c :: rest =>
      unfold BVHNode.newF at h
      simp only at h
      obtain ⟨l, r, hL, hR, htree⟩ := bvhMatch_eq_some h
      subst htree
      intro s
      have hml := ih _ _ hL s
      have hmr := ih _ _ hR s
      show s ∈ l.leaves ++ r.leaves ↔ _
      rw [List.mem_append, hml, hmr, ← List.mem_append, List.take_append_drop]
      exact (List.mergeSort_perm (a :: b :: c :: rest) _).mem_iff

/-- Every tree built by `BVHNode::new` from surfaces with finite boxes satisfies the
traversal invariant. -/
theorem BVHNode.newF_wf (fuel : Nat) (objects : List Surface) (tree : HTree)
    (h : BVHNode.newF fuel objects = some tree)
    (hall : ∀ s ∈ objects, RealForm s.bounding_box) : TreeWF tree := by
  induction fuel generalizing objects tree with
  | zero => simp [BVHNode.newF] at h
  | succ fuel ih =>
    match objects with
    | [] => rw [BVHNode.newF_nil] at h; cases h
    | [a] =>
      simp only [BVHNode.newF, Option.some.injEq] at h
      subst h
      refine ⟨trivial, trivial, ?_, ?_⟩
      · exact boundingBoxFold_realForm _ (by simp) hall
      · intro s hs
        have : s = a := by simpa [HTree.leaves] using hs
        subst this
        exact mem_boxLE_fold _ _ (by simp)
    | [a, b] =>
      simp only [BVHNode.newF, Option.some.injEq] at h
      subst h
      refine ⟨trivial, trivial, ?_, ?_⟩
      · exact boundingBoxFold_realForm _ (by simp) hall
      · intro s hs
        have : s = a ∨ s = b := by simpa [HTree.leaves] using hs
        rcases this with rfl | rfl
        · exact mem_boxLE_fold _ _ (by simp)
        · exact mem_boxLE_fold _ _ (by simp)
    | a :: b :: c :: rest =>
      unfold BVHNode.newF at h
      simp only at h
      obtain ⟨l, r, hL, hR, htree⟩ := bvhMatch_eq_some h
      subst htree
      have hsortmem : ∀ s, s ∈ ((a :: b :: c :: rest).mergeSort (fun s1 s2 =>
          decide ((s1.bounding_box.axis (boundingBoxFold
            (a :: b :: c :: rest)).longest_axis).start
            ≤ (s2.bounding_box.axis (boundingBoxFold
              (a :: b :: c :: rest)).longest_axis).start)))
          ↔ s ∈ a :: b :: c :: rest :=
        fun s => (List.mergeSort_perm (a :: b :: c :: rest) _).mem_iff
      refine ⟨?_, ?_, ?_, ?_⟩
      · refine ih _ _ hL ?_
        intro s hs
        exact hall s ((hsortmem s).mp (List.mem_of_mem_take hs))
      · refine ih _ _ hR ?_
        intro s hs
        exact hall s ((hsortmem s).mp (List.mem_of_mem_drop hs))
      · exact boundingBoxFold_realForm _ (by simp) hall
      · intro s hs
        have hmem : s ∈ a :: b :: c :: rest := by
          rcases List.mem_append.mp hs with hsl | hsr
          · exact (hsortmem s).mp
              (List.mem_of_mem_take ((BVHNode.newF_leaves_mem _ _ _ hL s).mp hsl))
          · exact (hsortmem s).mp
              (List.mem_of_mem_drop ((BVHNode.newF_leaves_mem _ _ _ hR s).mp hsr))
        exact mem_boxLE_fold _ _ hmem

/-- `BVHNode::hit` computes the closest hit among the leaves, for every narrowed
query bound `e ≤ e0`, provided the ray has no zero direction component and every
full-interval hit point is strictly inside its surface's box. -/
theorem HTree.hit_isClosest_tree (ray : Ray) (s0 e0 : EReal)
    (hdx : ray.direction.x ≠ 0) (hdy : ray.direction.y ≠ 0) (hdz : ray.direction.z ≠ 0) :
    ∀ tree : HTree, TreeWF tree →
      (∀ s ∈ tree.leaves, ∀ h, s.hit ray (Interval.new s0 e0) = some h →
        insideStrict s.bounding_box h.point) →
      ∀ e : EReal, e ≤ e0 →
        IsClosestHit tree.leaves ray (Interval.new s0 e0) e
          (tree.hit ray (Interval.new s0 e)) := by
  intro tree
  induction tree with
  | surf s =>
    intro _ _ e he
    show IsClosestHit [s] ray _ e (s.hit ray (Interval.new s0 e))
    rw [Surface.hit_char_surface s ray s0 e0 e he]
    rcases hfull : s.hit ray (Interval.new s0 e0) with _ | fh
    · rw [restrictHit_none]
      intro s' hs' h hh
      rcases List.mem_singleton.mp hs' with rfl
      rw [hfull] at hh
      cases hh
    · rw [restrictHit_some]
      by_cases hlt : (fh.t : EReal) < e
      · rw [if_pos hlt]
        refine ⟨⟨s, List.mem_singleton_self _, hfull⟩, hlt, ?_⟩
        intro s' hs' h hh _
        rcases List.mem_singleton.mp hs' with rfl
        rw [hfull] at hh
        cases hh
        exact le_refl _
      · rw [if_neg hlt]
        intro s' hs' h hh
        rcases List.mem_singleton.mp hs' with rfl
        rw [hfull] at hh
        cases hh
        exact hlt
  | node l r box ihl ihr =>
    intro hwf hint e he
    obtain ⟨hwfl, hwfr, hreal, hbole⟩ := hwf
    have hintl : ∀ s ∈ l.leaves, ∀ h, s.hit ray (Interval.new s0 e0) = some h →
        insideStrict s.bounding_box h.point :=
      fun s hs => hint s (List.mem_append_left _ hs)
    have hintr : ∀ s ∈ r.leaves, ∀ h, s.hit ray (Interval.new s0 e0) = some h →
        insideStrict s.bounding_box h.point :=
      fun s hs => hint s (List.mem_append_right _ hs)
    show IsClosestHit (l.leaves ++ r.leaves) ray _ e
      (HTree.hit (.node l r box) ray (Interval.new s0 e))
    simp only [HTree.hit]
    by_cases hbox : box.hit ray (Interval.new s0 e) = true
    · rw [if_pos hbox]
      have IHL := ihl hwfl hintl e he
      rcases hL : l.hit ray (Interval.new s0 e) with _ | lh
      · rw [hL] at IHL
        have IHR := ihr hwfr hintr e he
        dsimp only [Interval.new_start]
        rcases hR : r.hit ray (Interval.new s0 e) with _ | rh
        · rw [hR] at IHR
          intro s' hs' h hh
          rcases List.mem_append.mp hs' with hsl | hsr
          · exact IHL s' hsl h hh
          · exact IHR s' hsr h hh
        · rw [hR] at IHR
          obtain ⟨⟨sR, hsR, hhR⟩, hltR, hminR⟩ := IHR
          refine ⟨⟨sR, List.mem_append_right _ hsR, hhR⟩, hltR, ?_⟩
          intro s' hs' h hh hhlt
          rcases List.mem_append.mp hs' with hsl | hsr
          · exact absurd hhlt (IHL s' hsl h hh)
          · exact hminR s' hsr h hh hhlt
      · rw [hL] at IHL
        obtain ⟨⟨sL, hsL, hhL⟩, hltL, hminL⟩ := IHL
        have hlh_le : (lh.t : EReal) ≤ e0 := le_of_lt (lt_of_lt_of_le hltL he)
        have IHR := ihr hwfr hintr (lh.t : EReal) hlh_le
        dsimp only [Interval.new_start]
        rcases hR : r.hit ray (Interval.new s0 (lh.t : EReal)) with _ | rh
        · rw [hR] at IHR
          refine ⟨⟨sL, List.mem_append_left _ hsL, hhL⟩, hltL, ?_⟩
          intro s' hs' h hh hhlt
          rcases List.mem_append.mp hs' with hsl | hsr
          · exact hminL s' hsl h hh hhlt
          · have := IHR s' hsr h hh
            have hge : ¬(h.t < lh.t) := fun hc => this (EReal.coe_lt_coe_iff.mpr hc)
            exact le_of_not_lt hge
        · rw [hR] at IHR
          obtain ⟨⟨sR, hsR, hhR⟩, hltR, hminR⟩ := IHR
          refine ⟨⟨sR, List.mem_append_right _ hsR, hhR⟩, lt_trans hltR hltL, ?_⟩
          intro s' hs' h hh hhlt
          have hrl : rh.t < lh.t := EReal.coe_lt_coe_iff.mp hltR
          rcases List.mem_append.mp hs' with hsl | hsr
          · have := hminL s' hsl h hh hhlt
            linarith
          · by_cases hcase : (h.t : EReal) < (lh.t : EReal)
            · exact hminR s' hsr h hh hcase
            · have h2 : lh.t ≤ h.t := EReal.coe_le_coe_iff.mp (le_of_not_lt hcase)
              linarith
    · rw [if_neg hbox]
      intro s' hs' h hh hhlt
      have hb := Surface.hit_t_bounds s' ray s0 e0 h hh
      have hpoint := Surface.hit_point_eq s' ray _ h hh
      have hin := hint s' hs' h hh
      rw [hpoint] at hin
      have hinbox := insideStrict_mono (hbole s' hs') hin
      exact hbox (box_hit_of_insideStrict box ray h.t s0 e hreal hdx hdy hdz hinbox
        hb.1 (lt_of_lt_of_le (lt_of_le_of_lt (le_refl _) hhlt) (le_refl _)))

/-- C1 (amended): for every surface set and every BVH built from it, if the ray has no
zero direction component (the embedding of the f32 slab divisions is exact there), the
surfaces' boxes have finite endpoints, and every full-interval hit point lies strictly
inside its surface's bounding box, then `BVHNode::hit` and `HittableList::hit` return
the same closest hit distance `t` (or both return no hit).  Without the interiority
hypothesis the claim is false: see the counterexample, where a hit point on a
degenerate box face makes the slab interval collapse and the BVH prunes a real hit. -/
theorem C1_bvh_list_same_t (objects : List Surface) (fuel : Nat) (tree : HTree)
    (hbuild : BVHNode.newF fuel objects = some tree)
    (ray : Ray) (s0 e0 : EReal)
    (hdx : ray.direction.x ≠ 0) (hdy : ray.direction.y ≠ 0) (hdz : ray.direction.z ≠ 0)
    (hreal : ∀ s ∈ objects, RealForm s.bounding_box)
    (hint : ∀ s ∈ objects, ∀ h, s.hit ray (Interval.new s0 e0) = some h →
      insideStrict s.bounding_box h.point) (b : AABB) :
    (tree.hit ray (Interval.new s0 e0)).map HitInfo.t
      = ((HittableList.mk objects b).hit ray (Interval.new s0 e0)).map HitInfo.t := by
  have hmem := BVHNode.newF_leaves_mem fuel objects tree hbuild
  have hwf := BVHNode.newF_wf fuel objects tree hbuild hreal
  have htree := HTree.hit_isClosest_tree ray s0 e0 hdx hdy hdz tree hwf
    (fun s hs => hint s ((hmem s).mp hs)) e0 (le_refl _)
  have hlist := HittableList.hit_isClosest objects b ray s0 e0
  exact IsClosestHit_unique_t hmem htree hlist

/-- Evaluation of one slab iteration on a box axis with real endpoints: the running
interval is clipped by the sorted entry/exit distances, all computed over the reals. -/
theorem hitAxisRange_real_eval (box : AABB) (ray : Ray) (s e : ℝ) (i : Nat) (a b o d : ℝ)
    (haxis : box.axis i = Interval.new (a : ℝ) (b : ℝ))
    (ho : ray.origin.idx i = o) (hd : ray.direction.idx i = d) :
    box.hitAxisRange ray (Interval.new ((s : ℝ) : EReal) ((e : ℝ) : EReal)) i
      = Interval.new ((max s (min ((a - o)/d) ((b - o)/d)) : ℝ) : EReal)
          ((min e (max ((a - o)/d) ((b - o)/d)) : ℝ) : EReal) := by
  unfold AABB.hitAxisRange
  rw [haxis, ho, hd]
  dsimp only [Interval.new_start, Interval.new_stop]
  have hcoe : ((a : EReal) - (o : EReal)) / (d : EReal) = (((a - o) / d : ℝ) : EReal) := by
    rw [← EReal.coe_sub, ← EReal.coe_div]
  have hcoe' : ((b : EReal) - (o : EReal)) / (d : EReal) = (((b - o) / d : ℝ) : EReal) := by
    rw [← EReal.coe_sub, ← EReal.coe_div]
  rw [hcoe, hcoe', sorted_pair_fst, sorted_pair_snd, ← ereal_coe_min, ← ereal_coe_max,
    ← ereal_coe_max, ← ereal_coe_min]
  rfl

/-- C1 counterexample: the original claim (exact agreement for every scene) is false.
For the axis-aligned quad `Quad::new((0,0,0),(1,0,0),(0,1,0))` the bounding box is
degenerate on the normal axis (`z`-interval `[0,0]`), so for the ray from
`(-1/2,-1/2,-1)` along `(1,1,1)` with query interval `(1/10, 2)` the slab interval of
the one-quad BVH node collapses to `[1,1]` and the `end <= start` test rejects it:
`BVHNode::hit` returns no hit while `HittableList::hit` over the same single quad
returns the hit at `t = 1`. -/
theorem C1_bvh_list_same_t_cex :
    BVHNode.newF 1 [Surface.quad (Quad.new (Vec3.new 0 0 0) (Vec3.new 1 0 0) (Vec3.new 0 1 0)
        (.lambertian Vec3.ONE))]
      = some (HTree.node
          (.surf (Surface.quad (Quad.new (Vec3.new 0 0 0) (Vec3.new 1 0 0) (Vec3.new 0 1 0)
            (.lambertian Vec3.ONE))))
          (.surf (Surface.quad (Quad.new (Vec3.new 0 0 0) (Vec3.new 1 0 0) (Vec3.new 0 1 0)
            (.lambertian Vec3.ONE))))
          (boundingBoxFold [Surface.quad (Quad.new (Vec3.new 0 0 0) (Vec3.new 1 0 0)
            (Vec3.new 0 1 0) (.lambertian Vec3.ONE))])) ∧
    ((HTree.node
          (.surf (Surface.quad (Quad.new (Vec3.new 0 0 0) (Vec3.new 1 0 0) (Vec3.new 0 1 0)
            (.lambertian Vec3.ONE))))
          (.surf (Surface.quad (Quad.new (Vec3.new 0 0 0) (Vec3.new 1 0 0) (Vec3.new 0 1 0)
            (.lambertian Vec3.ONE))))
          (boundingBoxFold [Surface.quad (Quad.new (Vec3.new 0 0 0) (Vec3.new 1 0 0)
            (Vec3.new 0 1 0) (.lambertian Vec3.ONE))])).hit
        (Ray.new (Vec3.new (-1/2) (-1/2) (-1)) (Vec3.new 1 1 1))
        (Interval.new ((1/10 : ℝ) : EReal) ((2 : ℝ) : EReal))).map HitInfo.t = none ∧
    ((HittableList.mk [Surface.quad (Quad.new (Vec3.new 0 0 0) (Vec3.new 1 0 0) (Vec3.new 0 1 0)
          (.lambertian Vec3.ONE))] AABB.EMPTY).hit
        (Ray.new (Vec3.new (-1/2) (-1/2) (-1)) (Vec3.new 1 1 1))
        (Interval.new ((1/10 : ℝ) : EReal) ((2 : ℝ) : EReal))).map HitInfo.t
      = some 1 := by
  have hcross : Vec3.cross (Vec3.new 1 0 0) (Vec3.new 0 1 0) = Vec3.new 0 0 1 := by
    unfold Vec3.cross; ext <;> simp
  have hnorm : (Vec3.new (0:ℝ) 0 1).normalized = Vec3.new 0 0 1 := by
    unfold Vec3.normalized Vec3.length Vec3.length_squared
    rw [Vec3.div_def, Vec3.mul_real_def]
    norm_num
  have hq : Quad.new (Vec3.new 0 0 0) (Vec3.new 1 0 0) (Vec3.new 0 1 0) (.lambertian Vec3.ONE)
      = { origin := Vec3.new 0 0 0, u := Vec3.new 1 0 0, v := Vec3.new 0 1 0,
          normal := Vec3.new 0 0 1, d := 0, w := Vec3.new 0 0 1,
          material := .lambertian Vec3.ONE,
          bounding_box := AABB.new (Interval.new ((0:ℝ) : EReal) ((1:ℝ) : EReal))
            (Interval.new ((0:ℝ) : EReal) ((1:ℝ) : EReal))
            (Interval.new ((0:ℝ) : EReal) ((0:ℝ) : EReal)) } := by
    unfold Quad.new
    simp only [hcross, hnorm]
    unfold AABB.combine Interval.combine AABB.from_points AABB.new
    rw [Vec3.add_def, Vec3.add_def, Vec3.add_def]
    norm_num [Interval.new, Vec3.dot, Vec3.length_squared, Vec3.div_def, Vec3.mul_real_def,
      EReal.coe_le_coe_iff]
  have hboxfold : boundingBoxFold [Surface.quad (Quad.new (Vec3.new 0 0 0) (Vec3.new 1 0 0)
      (Vec3.new 0 1 0) (.lambertian Vec3.ONE))]
      = AABB.new (Interval.new ((0:ℝ) : EReal) ((1:ℝ) : EReal))
          (Interval.new ((0:ℝ) : EReal) ((1:ℝ) : EReal))
          (Interval.new ((0:ℝ) : EReal) ((0:ℝ) : EReal)) := by
    show AABB.combine AABB.EMPTY _ = _
    rw [AABB.combine_EMPTY_left_box]
    rw [show (Surface.quad (Quad.new (Vec3.new 0 0 0) (Vec3.new 1 0 0) (Vec3.new 0 1 0)
      (.lambertian Vec3.ONE))).bounding_box
      = (Quad.new (Vec3.new 0 0 0) (Vec3.new 1 0 0) (Vec3.new 0 1 0)
        (.lambertian Vec3.ONE)).bounding_box from rfl, hq]
  have hqhit : (Surface.quad (Quad.new (Vec3.new 0 0 0) (Vec3.new 1 0 0) (Vec3.new 0 1 0)
      (.lambertian Vec3.ONE))).hit
      (Ray.new (Vec3.new (-1/2) (-1/2) (-1)) (Vec3.new 1 1 1))
      (Interval.new ((1/10 : ℝ) : EReal) ((2 : ℝ) : EReal))
      = some { point := Vec3.new (1/2) (1/2) 0, normal := Vec3.new 0 0 (-1),
               material := .lambertian Vec3.ONE, t := 1, u := 0, v := 0,
               front_face := false } := by
    show (Quad.new _ _ _ _).hit _ _ = _
    rw [hq]
    unfold Quad.hit
    norm_num [Vec3.dot, Ray.new_direction, Ray.new_origin, Interval.new,
      Interval.surrounds, Quad.UNIT_INTERVAL, Interval.contains,
      Ray.point_at, Vec3.add_def, Vec3.real_mul_def, Vec3.mul_real_def, Vec3.sub_def,
      Vec3.cross, HitInfo.set_face_normal, HitInfo.new, Vec3.neg_def,
      ← EReal.coe_one, EReal.coe_le_coe_iff, EReal.coe_lt_coe_iff]
  refine ⟨rfl, ?_, ?_⟩
  · set box := AABB.new (Interval.new ((0:ℝ) : EReal) ((1:ℝ) : EReal))
      (Interval.new ((0:ℝ) : EReal) ((1:ℝ) : EReal))
      (Interval.new ((0:ℝ) : EReal) ((0:ℝ) : EReal)) with hbox
    set ray := Ray.new (Vec3.new (-1/2 : ℝ) (-1/2) (-1)) (Vec3.new 1 1 1) with hray
    have h0 : box.hitAxisRange ray (Interval.new ((1/10 : ℝ) : EReal) ((2 : ℝ) : EReal)) 0
        = Interval.new ((1/2 : ℝ) : EReal) ((3/2 : ℝ) : EReal) := by
      rw [hitAxisRange_real_eval box ray (1/10) 2 0 0 1 (-1/2) 1 rfl rfl rfl]
      norm_num
    have h1 : box.hitAxisRange ray (Interval.new ((1/2 : ℝ) : EReal) ((3/2 : ℝ) : EReal)) 1
        = Interval.new ((1/2 : ℝ) : EReal) ((3/2 : ℝ) : EReal) := by
      rw [hitAxisRange_real_eval box ray (1/2) (3/2) 1 0 1 (-1/2) 1 rfl rfl rfl]
      norm_num
    have h2 : box.hitAxisRange ray (Interval.new ((1/2 : ℝ) : EReal) ((3/2 : ℝ) : EReal)) 2
        = Interval.new ((1 : ℝ) : EReal) ((1 : ℝ) : EReal) := by
      rw [hitAxisRange_real_eval box ray (1/2) (3/2) 2 0 0 (-1) 1 rfl rfl rfl]
      norm_num
    have hfalse : box.hit ray (Interval.new ((1/10 : ℝ) : EReal) ((2 : ℝ) : EReal)) = false := by
      show box.hitLoop ray (Interval.new ((1/10 : ℝ) : EReal) ((2 : ℝ) : EReal)) [0, 1, 2] = false
      rw [show box.hitLoop ray (Interval.new ((1/10 : ℝ) : EReal) ((2 : ℝ) : EReal)) [0, 1, 2]
          = (if ((box.hitAxisRange ray (Interval.new ((1/10 : ℝ) : EReal) ((2 : ℝ) : EReal))
                0).stop ≤ (box.hitAxisRange ray (Interval.new ((1/10 : ℝ) : EReal)
                ((2 : ℝ) : EReal)) 0).start) then false
            else box.hitLoop ray (box.hitAxisRange ray (Interval.new ((1/10 : ℝ) : EReal)
              ((2 : ℝ) : EReal)) 0) [1, 2]) from rfl, h0]
      rw [if_neg (by rw [Interval.new_start, Interval.new_stop]; exact not_le.mpr (EReal.coe_lt_coe_iff.mpr (by norm_num)))]
      rw [show box.hitLoop ray (Interval.new ((1/2 : ℝ) : EReal) ((3/2 : ℝ) : EReal)) [1, 2]
          = (if ((box.hitAxisRange ray (Interval.new ((1/2 : ℝ) : EReal) ((3/2 : ℝ) : EReal))
                1).stop ≤ (box.hitAxisRange ray (Interval.new ((1/2 : ℝ) : EReal)
                ((3/2 : ℝ) : EReal)) 1).start) then false
            else box.hitLoop ray (box.hitAxisRange ray (Interval.new ((1/2 : ℝ) : EReal)
              ((3/2 : ℝ) : EReal)) 1) [2]) from rfl, h1]
      rw [if_neg (by rw [Interval.new_start, Interval.new_stop]; exact not_le.mpr (EReal.coe_lt_coe_iff.mpr (by norm_num)))]
      rw [show box.hitLoop ray (Interval.new ((1/2 : ℝ) : EReal) ((3/2 : ℝ) : EReal)) [2]
          = (if ((box.hitAxisRange ray (Interval.new ((1/2 : ℝ) : EReal) ((3/2 : ℝ) : EReal))
                2).stop ≤ (box.hitAxisRange ray (Interval.new ((1/2 : ℝ) : EReal)
                ((3/2 : ℝ) : EReal)) 2).start) then false
            else box.hitLoop ray (box.hitAxisRange ray (Interval.new ((1/2 : ℝ) : EReal)
              ((3/2 : ℝ) : EReal)) 2) []) from rfl, h2]
      rw [if_pos (show (Interval.new ((1:ℝ) : EReal) ((1:ℝ) : EReal)).stop ≤ (Interval.new ((1:ℝ) : EReal) ((1:ℝ) : EReal)).start from le_refl _)]
    show (if (boundingBoxFold _).hit ray (Interval.new ((1/10 : ℝ) : EReal) ((2 : ℝ) : EReal))
        then _ else none).map HitInfo.t = none
    rw [hboxfold, hfalse]
    simp
  · unfold HittableList.hit
    rw [List.foldl_cons, List.foldl_nil]
    dsimp only [Interval.new_start, Interval.new_stop]
    rw [hqhit]
    rfl

theorem C1_bvh_list_same_t_witness :
    ((HTree.node (.surf (Surface.sphere (Sphere.new (Vec3.new 0 0 0) 1 (.lambertian Vec3.ONE))))
        (.surf (Surface.sphere (Sphere.new (Vec3.new 0 0 0) 1 (.lambertian Vec3.ONE))))
        (boundingBoxFold [Surface.sphere (Sphere.new (Vec3.new 0 0 0) 1 (.lambertian Vec3.ONE))])).hit
        (Ray.new (Vec3.new (-2/5) (-1/5) (-1)) (Vec3.new 1 1 1))
        (Interval.new ((1/100 : ℝ) : EReal) ((100 : ℝ) : EReal))).map HitInfo.t
      = ((HittableList.mk [Surface.sphere (Sphere.new (Vec3.new 0 0 0) 1 (.lambertian Vec3.ONE))]
          AABB.EMPTY).hit
          (Ray.new (Vec3.new (-2/5) (-1/5) (-1)) (Vec3.new 1 1 1))
          (Interval.new ((1/100 : ℝ) : EReal) ((100 : ℝ) : EReal))).map HitInfo.t := by
  have h49 : Real.sqrt (49 : ℝ) = 7 := by
    rw [show (49 : ℝ) = 7^2 by norm_num, Real.sqrt_sq (by norm_num)]
  have h25 : Real.sqrt (25 : ℝ) = 5 := by
    rw [show (25 : ℝ) = 5^2 by norm_num, Real.sqrt_sq (by norm_num)]
  have hhit : (Surface.sphere (Sphere.new (Vec3.new 0 0 0) 1 (.lambertian Vec3.ONE))).hit
      (Ray.new (Vec3.new (-2/5) (-1/5) (-1)) (Vec3.new 1 1 1))
      (Interval.new ((1/100 : ℝ) : EReal) ((100 : ℝ) : EReal))
      = some { point := Vec3.new (-1/3) (-2/15) (-14/15),
               normal := Vec3.new (-1/3) (-2/15) (-14/15),
               material := .lambertian Vec3.ONE, t := 1/15, u := 0, v := 0,
               front_face := true } := by
    simp only [Surface.hit, Sphere.hit, Sphere.new_center, Sphere.new_radius,
      Sphere.new_material, Ray.new_origin, Ray.new_direction]
    norm_num [Vec3.dot, Vec3.sub_def, Vec3.length_squared]
    norm_num [h49, h25, Interval.new_surrounds, Ray.point_at, Ray.new_origin, Ray.new_direction,
      Vec3.add_def, Vec3.real_mul_def,
      Vec3.mul_real_def, HitInfo.set_face_normal, HitInfo.new, Vec3.normalized, Vec3.length,
      Vec3.length_squared, Vec3.div_def, Vec3.sub_def, Vec3.dot]
  refine C1_bvh_list_same_t
      [Surface.sphere (Sphere.new (Vec3.new 0 0 0) 1 (.lambertian Vec3.ONE))] 1 _ rfl
      (Ray.new (Vec3.new (-2/5) (-1/5) (-1)) (Vec3.new 1 1 1))
      ((1/100 : ℝ) : EReal) ((100 : ℝ) : EReal)
      (by norm_num [Ray.new_direction]) (by norm_num [Ray.new_direction])
      (by norm_num [Ray.new_direction]) ?_ ?_ AABB.EMPTY
  · intro s hs
    rcases List.mem_singleton.mp hs with rfl
    exact Sphere.new_realForm _ _ _
  · intro s hs h hh
    rcases List.mem_singleton.mp hs with rfl
    rw [hhit] at hh
    cases hh
    constructor
    · norm_num [Surface.bounding_box, Sphere.new, Vec3.uniform, Vec3.sub_def, Vec3.add_def,
        AABB.from_points, AABB.new, Interval.new, ← EReal.coe_neg, ← EReal.coe_one,
        EReal.coe_lt_coe_iff]
    constructor
    · norm_num [Surface.bounding_box, Sphere.new, Vec3.uniform, Vec3.sub_def, Vec3.add_def,
        AABB.from_points, AABB.new, Interval.new, ← EReal.coe_neg, ← EReal.coe_one,
        EReal.coe_lt_coe_iff]
    · norm_num [Surface.bounding_box, Sphere.new, Vec3.uniform, Vec3.sub_def, Vec3.add_def,
        AABB.from_points, AABB.new, Interval.new, ← EReal.coe_neg, ← EReal.coe_one,
        EReal.coe_lt_coe_iff]

end

end RT
